import Mathlib

/-!
Verification development for the education-website CMS backend
(`src/db.js`: sqlite schema + Express route handlers).

The handlers are shallowly embedded as pure functions over an explicit
database state (`DB`): tables are lists of rows in insertion (rowid)
order, `SELECT ... ORDER BY position ASC` is an insertion sort by the
`position` column, `UPDATE ... WHERE id=?` is a map over the rows, and
`DELETE ... WHERE id=?` is a filter.  JavaScript strings are `List Char`;
timestamps (`nowIso()`) are abstracted to a `Nat` argument threaded into
every mutating handler.  `JSON.parse` / `JSON.stringify`, as used on the
block payloads, are modelled by an executable serializer and a fuelled
recursive-descent parser over a `Json` value type (integer numerals, no
insignificant whitespace - every payload the application itself writes is
compact, and `parseJsonSafe` only distinguishes success from failure).
-/

/-! ## JSON values -/

/-- A JSON value as produced by `JSON.parse`: the block payloads of the
application are built from strings, (integer) numbers, arrays and objects;
`null` and booleans are included because user-submitted `quiz_json` can
contain them.  Object member order is kept, matching JavaScript object
key order. -/
inductive Json where
  | null : Json
  | bool : Bool → Json
  | num : Int → Json
  | str : List Char → Json
  | arr : List Json → Json
  | obj : List (List Char × Json) → Json

/-! ## Serialization (`JSON.stringify`) -/

/-- Digit test on unicode scalar values (the chars `0`â€¦`9`). -/
def isDigitC (c : Char) : Bool := 48 ≤ c.toNat && c.toNat ≤ 57

/-- Decimal digits of `n`, most significant first.  The fuel argument
makes the recursion structural; `natChars` supplies enough fuel. -/
def natCharsAux : Nat → Nat → List Char
  | 0, _ => []
  | fuel + 1, n =>
    if n < 10 then [Nat.digitChar n]
    else natCharsAux fuel (n / 10) ++ [Nat.digitChar (n % 10)]

def natChars (n : Nat) : List Char := natCharsAux (n + 1) n

/-- Decimal representation of an integer (`String(n)` for the integers
`JSON.stringify` emits). -/
def intChars (i : Int) : List Char :=
  if i < 0 then '-' :: natChars i.natAbs else natChars i.toNat

/-- JSON string escaping of one character: `"` and `\` get a backslash
escape, control characters a `\u00XX` escape, everything else is kept. -/
def escapeChar (c : Char) : List Char :=
  if c = '"' then ['\\', '"']
  else if c = '\\' then ['\\', '\\']
  else if c.toNat < 32 then
    ['\\', 'u', '0', '0', Nat.digitChar (c.toNat / 16), Nat.digitChar (c.toNat % 16)]
  else [c]

def escChars : List Char → List Char
  | [] => []
  | c :: cs => escapeChar c ++ escChars cs

mutual
/-- `JSON.stringify` (compact form, no added whitespace). -/
def stringifyVal : Json → List Char
  | .null => "null".data
  | .bool true => "true".data
  | .bool false => "false".data
  | .num i => intChars i
  | .str s => '"' :: escChars s ++ ['"']
  | .arr [] => "[]".data
  | .arr (x :: xs) => '[' :: (stringifyVal x ++ stringifyArrTail xs) ++ [']']
  | .obj [] => "\x7b\x7d".data
  | .obj (kv :: kvs) => '\x7b' :: (stringifyMember kv ++ stringifyObjTail kvs) ++ ['\x7d']

def stringifyArrTail : List Json → List Char
  | [] => []
  | x :: xs => ',' :: stringifyVal x ++ stringifyArrTail xs

def stringifyMember : List Char × Json → List Char
  | (k, v) => '"' :: escChars k ++ '"' :: ':' :: stringifyVal v

def stringifyObjTail : List (List Char × Json) → List Char
  | [] => []
  | kv :: kvs => ',' :: stringifyMember kv ++ stringifyObjTail kvs
end

/-! ## Parsing (`JSON.parse`) -/

/-- Value of a hexadecimal digit character. -/
def hexVal (c : Char) : Option Nat :=
  if 48 ≤ c.toNat ∧ c.toNat ≤ 57 then some (c.toNat - 48)
  else if 97 ≤ c.toNat ∧ c.toNat ≤ 102 then some (c.toNat - 87)
  else if 65 ≤ c.toNat ∧ c.toNat ≤ 70 then some (c.toNat - 55)
  else none

/-- The single-character JSON escapes. -/
def simpleEsc (e : Char) : Option Char :=
  if e = '"' then some '"'
  else if e = '\\' then some '\\'
  else if e = '/' then some '/'
  else if e = 'n' then some '\n'
  else if e = 't' then some '\t'
  else if e = 'r' then some '\r'
  else if e = 'b' then some '\x08'
  else if e = 'f' then some '\x0c'
  else none

/-- Greedily read decimal digits, accumulating their value. -/
def parseDigits : List Char → Nat → Nat × List Char
  | [], acc => (acc, [])
  | c :: cs, acc =>
    if isDigitC c then parseDigits cs (acc * 10 + (c.toNat - 48)) else (acc, c :: cs)

/-- Body of a JSON string (everything after the opening quote), fuelled by
the number of characters still to be produced. -/
def parseStrBody : Nat → List Char → Option (List Char × List Char)
  | 0, _ => none
  | _ + 1, [] => none
  | fuel + 1, c :: cs =>
    if c = '"' then some ([], cs)
    else if c = '\\' then
      match cs with
      | [] => none
      | e :: cs2 =>
        if e = 'u' then
          match cs2 with
          | h1 :: h2 :: h3 :: h4 :: cs3 =>
            match hexVal h1, hexVal h2, hexVal h3, hexVal h4 with
            | some a, some b, some c2, some d =>
              match parseStrBody fuel cs3 with
              | some (s, rest) => some (Char.ofNat (((a * 16 + b) * 16 + c2) * 16 + d) :: s, rest)
              | none => none
            | _, _, _, _ => none
          | _ => none
        else
          match simpleEsc e with
          | some u =>
            match parseStrBody fuel cs2 with
            | some (s, rest) => some (u :: s, rest)
            | none => none
          | none => none
    else if c.toNat < 32 then none
    else
      match parseStrBody fuel cs with
      | some (s, rest) => some (c :: s, rest)
      | none => none

mutual
/-- Recursive-descent JSON value parser.  Fuel bounds the nesting of
recursive parses; `jsonParse` supplies enough for its whole input. -/
def parseVal : Nat → List Char → Option (Json × List Char)
  | 0, _ => none
  | _ + 1, [] => none
  | fuel + 1, c :: cs =>
    if isDigitC c then
      let p := parseDigits (c :: cs) 0
      some (.num (p.1 : Int), p.2)
    else if c = '-' then
      match cs with
      | [] => none
      | d :: _ =>
        if isDigitC d then
          let p := parseDigits cs 0
          some (.num (-(p.1 : Int)), p.2)
        else none
    else if c = '"' then
      match parseStrBody (cs.length + 1) cs with
      | some (s, rest) => some (.str s, rest)
      | none => none
    else if c = 'n' then
      match cs with
      | 'u' :: 'l' :: 'l' :: rest => some (.null, rest)
      | _ => none
    else if c = 't' then
      match cs with
      | 'r' :: 'u' :: 'e' :: rest => some (.bool true, rest)
      | _ => none
    else if c = 'f' then
      match cs with
      | 'a' :: 'l' :: 's' :: 'e' :: rest => some (.bool false, rest)
      | _ => none
    else if c = '[' then
      match cs with
      | [] => none
      | d :: cs2 =>
        if d = ']' then some (.arr [], cs2)
        else
          match parseVal fuel (d :: cs2) with
          | some (x, rest1) =>
            match parseArrTail fuel rest1 with
            | some (xs, rest2) => some (.arr (x :: xs), rest2)
            | none => none
          | none => none
    else if c = '\x7b' then
      match cs with
      | [] => none
      | d :: cs2 =>
        if d = '\x7d' then some (.obj [], cs2)
        else
          match parseMember fuel (d :: cs2) with
          | some (kv, rest1) =>
            match parseObjTail fuel rest1 with
            | some (kvs, rest2) => some (.obj (kv :: kvs), rest2)
            | none => none
          | none => none
    else none

/-- After the first array element: a `,`-separated tail up to `]`. -/
def parseArrTail : Nat → List Char → Option (List Json × List Char)
  | 0, _ => none
  | _ + 1, [] => none
  | fuel + 1, c :: cs =>
    if c = ']' then some ([], cs)
    else if c = ',' then
      match parseVal fuel cs with
      | some (x, rest1) =>
        match parseArrTail fuel rest1 with
        | some (xs, rest2) => some (x :: xs, rest2)
        | none => none
      | none => none
    else none

/-- One `"key":value` object member. -/
def parseMember : Nat → List Char → Option ((List Char × Json) × List Char)
  | 0, _ => none
  | _ + 1, [] => none
  | fuel + 1, c :: cs =>
    if c = '"' then
      match parseStrBody (cs.length + 1) cs with
      | some (k, rest1) =>
        match rest1 with
        | ':' :: cs2 =>
          match parseVal fuel cs2 with
          | some (v, rest2) => some ((k, v), rest2)
          | none => none
        | _ => none
      | none => none
    else none

/-- After the first object member: a `,`-separated tail up to the
closing brace. -/
def parseObjTail : Nat → List Char → Option (List (List Char × Json) × List Char)
  | 0, _ => none
  | _ + 1, [] => none
  | fuel + 1, c :: cs =>
    if c = '\x7d' then some ([], cs)
    else if c = ',' then
      match parseMember fuel cs with
      | some (kv, rest1) =>
        match parseObjTail fuel rest1 with
        | some (kvs, rest2) => some (kv :: kvs, rest2)
        | none => none
      | none => none
    else none
end

/-- `JSON.parse`: parse a whole value and reject trailing input.
Returns `none` exactly where `JSON.parse` throws. -/
def jsonParse (l : List Char) : Option Json :=
  match parseVal (2 * l.length + 1) l with
  | some (j, []) => some j
  | _ => none

/-- `function parseJsonSafe(s, fallback) { try { return JSON.parse(s); }
catch { return fallback; } }` (src/db.js line 161). -/
def parseJsonSafe (s : List Char) (fallback : Json) : Json :=
  (jsonParse s).getD fallback

/-! ## Round-trip lemmas: `jsonParse (stringifyVal j) = some j` -/

/-- Is the head of the remaining input a decimal digit?  Number parsing
is greedy, so round-trip statements require a non-digit continuation. -/
def headNotDigit : List Char → Bool
  | [] => true
  | c :: _ => !(isDigitC c)

lemma isDigitC_digitChar {n : Nat} (h : n < 10) : isDigitC (Nat.digitChar n) = true := by
  interval_cases n <;> decide

lemma toNat_digitChar {n : Nat} (h : n < 10) : (Nat.digitChar n).toNat = 48 + n := by
  interval_cases n <;> decide

lemma hexVal_digitChar {n : Nat} (h : n < 16) : hexVal (Nat.digitChar n) = some n := by
  interval_cases n <;> decide

lemma natCharsAux_all_digits :
    ∀ n fuel, n < fuel → ∀ c ∈ natCharsAux fuel n, isDigitC c = true := by
  intro n
  induction n using Nat.strong_induction_on with
  | _ n ih =>
    intro fuel hlt c hc
    match fuel, hlt with
    | f + 1, hlt =>
      by_cases h10 : n < 10
      · simp [natCharsAux, h10] at hc
        subst hc; exact isDigitC_digitChar h10
      · simp [natCharsAux, h10] at hc
        rcases hc with hc | hc
        · exact ih (n / 10) (Nat.div_lt_self (by omega) (by omega)) f (by omega) c hc
        · subst hc; exact isDigitC_digitChar (Nat.mod_lt n (by omega))

lemma natCharsAux_ne_nil : ∀ n fuel, n < fuel → natCharsAux fuel n ≠ [] := by
  intro n fuel hlt
  match fuel, hlt with
  | f + 1, _ =>
    by_cases h10 : n < 10 <;> simp [natCharsAux, h10]

/-- Value accumulated by `parseDigits` over a digit string. -/
def digitsVal (acc : Nat) (ds : List Char) : Nat :=
  ds.foldl (fun a c => a * 10 + (c.toNat - 48)) acc

lemma parseDigits_digits :
    ∀ ds rest acc, (∀ c ∈ ds, isDigitC c = true) →
      parseDigits (ds ++ rest) acc = parseDigits rest (digitsVal acc ds) := by
  intro ds
  induction ds with
  | nil => intro rest acc _; simp [digitsVal]
  | cons c ds ih =>
    intro rest acc h
    have hc : isDigitC c = true := h c (by simp)
    simp only [List.cons_append, parseDigits, hc, if_true, digitsVal, List.foldl_cons]
    exact ih rest _ (fun x hx => h x (by simp [hx]))

lemma parseDigits_stop :
    ∀ rest acc, headNotDigit rest = true → parseDigits rest acc = (acc, rest) := by
  intro rest acc h
  cases rest with
  | nil => rfl
  | cons c cs =>
    simp [headNotDigit] at h
    simp [parseDigits, h]

lemma digitsVal_natCharsAux :
    ∀ n fuel acc, n < fuel →
      digitsVal acc (natCharsAux fuel n) = acc * 10 ^ (natCharsAux fuel n).length + n := by
  intro n
  induction n using Nat.strong_induction_on with
  | _ n ih =>
    intro fuel acc hlt
    match fuel, hlt with
    | f + 1, hlt =>
      by_cases h10 : n < 10
      · have := toNat_digitChar h10
        simp [natCharsAux, h10, digitsVal]
        omega
      · have hdiv : n / 10 < n := Nat.div_lt_self (by omega) (by omega)
        have hdivf : n / 10 < f := by omega
        have hmod := toNat_digitChar (Nat.mod_lt n (show 0 < 10 by omega) : n % 10 < 10)
        simp only [natCharsAux, h10, if_false, digitsVal, List.foldl_append, List.foldl_cons,
          List.foldl_nil, List.length_append, List.length_cons, List.length_nil]
        have hih := ih (n / 10) hdiv f acc hdivf
        simp only [digitsVal] at hih
        rw [hih, hmod]
        have : 10 ^ ((natCharsAux f (n / 10)).length + (0 + 1)) =
            10 ^ (natCharsAux f (n / 10)).length * 10 := by
          simp [pow_succ]
        rw [this]
        have h1 : n / 10 * 10 + n % 10 = n := by omega
        ring_nf
        omega

lemma escChars_length : ∀ s : List Char, s.length ≤ (escChars s).length := by
  intro s
  induction s with
  | nil => simp [escChars]
  | cons c cs ih =>
    have : 1 ≤ (escapeChar c).length := by
      simp [escapeChar]; split_ifs <;> simp
    simp only [escChars, List.length_append, List.length_cons]
    omega

lemma parseStrBody_escChars :
    ∀ (s rest : List Char) (fuel : Nat), s.length < fuel →
      parseStrBody fuel (escChars s ++ '"' :: rest) = some (s, rest) := by
  intro s
  induction s with
  | nil =>
    intro rest fuel h
    match fuel, h with
    | f + 1, _ => simp [escChars, parseStrBody]
  | cons c cs ih =>
    intro rest fuel h
    match fuel, h with
    | f + 1, h =>
      have hih := ih rest f (by simp at h; omega)
      by_cases h1 : c = '"'
      · subst h1
        simp only [escChars, escapeChar, if_true, List.cons_append, List.append_assoc]
        simp [parseStrBody, simpleEsc, hih]
      · by_cases h2 : c = '\\'
        · subst h2
          simp only [escChars, escapeChar, if_false, if_true, List.cons_append,
            List.append_assoc, reduceIte]
          simp [parseStrBody, simpleEsc, hih]
        · by_cases h3 : c.toNat < 32
          · have hd1 : c.toNat / 16 < 16 := by omega
            have hd2 : c.toNat % 16 < 16 := by omega
            have hc : Char.ofNat (c.toNat / 16 * 16 + c.toNat % 16) = c := by
              rw [show c.toNat / 16 * 16 + c.toNat % 16 = c.toNat from by omega]
              exact Char.ofNat_toNat c
            simp only [escChars, escapeChar, h1, h2, h3, if_true, if_false, reduceIte,
              List.cons_append, List.append_assoc]
            simp +decide [parseStrBody, show hexVal '0' = some 0 from rfl,
              hexVal_digitChar hd1, hexVal_digitChar hd2, hih, hc]
          · have h32 : ¬ c.toNat < 32 := h3
            simp only [escChars, escapeChar, h1, h2, h3, if_false, reduceIte,
              List.singleton_append, List.cons_append]
            simp [parseStrBody, h1, h2, h32, hih]

mutual
/-- Fuel consumed by `parseVal` on the output of `stringifyVal`:
one unit per recursive parsing call. -/
def Fval : Json → Nat
  | .null => 1
  | .bool _ => 1
  | .num _ => 1
  | .str _ => 1
  | .arr [] => 1
  | .arr (x :: xs) => 1 + Fval x + Farr xs
  | .obj [] => 1
  | .obj (kv :: kvs) => 1 + Fmem kv + Fobj kvs

def Farr : List Json → Nat
  | [] => 1
  | x :: xs => 1 + Fval x + Farr xs

def Fmem : List Char × Json → Nat
  | (_, v) => 1 + Fval v

def Fobj : List (List Char × Json) → Nat
  | [] => 1
  | kv :: kvs => 1 + Fmem kv + Fobj kvs
end

lemma Fval_pos : ∀ j : Json, 1 ≤ Fval j := by
  intro j
  cases j with
  | null => simp [Fval]
  | bool b => simp [Fval]
  | num i => simp [Fval]
  | str s => simp [Fval]
  | arr xs => cases xs <;> simp [Fval] <;> omega
  | obj kvs => cases kvs <;> simp [Fval] <;> omega

lemma Farr_pos : ∀ xs : List Json, 1 ≤ Farr xs := by
  intro xs; cases xs <;> simp [Farr] <;> omega

lemma Fmem_pos : ∀ kv : List Char × Json, 1 ≤ Fmem kv := by
  intro kv; cases kv; simp [Fmem]

lemma Fobj_pos : ∀ kvs : List (List Char × Json), 1 ≤ Fobj kvs := by
  intro kvs; cases kvs <;> simp [Fobj] <;> omega

/-- The first character of a serialized value is never a list or object
terminator (needed to steer the parser into the element branch). -/
lemma stringify_head :
    ∀ j : Json, ∃ d ds, stringifyVal j = d :: ds ∧ d ≠ ']' ∧ d ≠ '\x7d' := by
  intro j
  cases j with
  | null => exact ⟨'n', ['u', 'l', 'l'], by decide, by decide, by decide⟩
  | bool b =>
    cases b
    · exact ⟨'f', ['a', 'l', 's', 'e'], by decide, by decide, by decide⟩
    · exact ⟨'t', ['r', 'u', 'e'], by decide, by decide, by decide⟩
  | num i =>
    by_cases hi : i < 0
    · exact ⟨'-', natChars i.natAbs, by simp [stringifyVal, intChars, hi], by decide, by decide⟩
    · rcases hc : natCharsAux (i.toNat + 1) i.toNat with _ | ⟨d, ds⟩
      · exact absurd hc (natCharsAux_ne_nil i.toNat (i.toNat + 1) (by omega))
      · have hd : isDigitC d = true :=
          natCharsAux_all_digits i.toNat (i.toNat + 1) (by omega) d (by simp [hc])
        refine ⟨d, ds, by simp [stringifyVal, intChars, hi, natChars, hc], ?_, ?_⟩
        · intro he; subst he; exact absurd hd (by decide)
        · intro he; subst he; exact absurd hd (by decide)
  | str s => exact ⟨'"', escChars s ++ ['"'], by simp [stringifyVal], by decide, by decide⟩
  | arr xs =>
    cases xs with
    | nil => exact ⟨'[', [']'], by decide, by decide, by decide⟩
    | cons x xs =>
      exact ⟨'[', (stringifyVal x ++ stringifyArrTail xs) ++ [']'],
        by simp [stringifyVal], by decide, by decide⟩
  | obj kvs =>
    cases kvs with
    | nil => exact ⟨'\x7b', ['\x7d'], by decide, by decide, by decide⟩
    | cons kv kvs =>
      exact ⟨'\x7b', (stringifyMember kv ++ stringifyObjTail kvs) ++ ['\x7d'],
        by simp [stringifyVal], by decide, by decide⟩

lemma parseDigits_natChars (t : Nat) (rest : List Char) (acc : Nat)
    (hnd : headNotDigit rest = true) :
    parseDigits (natChars t ++ rest) acc = (acc * 10 ^ (natChars t).length + t, rest) := by
  have hdig : ∀ c ∈ natChars t, isDigitC c = true :=
    fun c hc => natCharsAux_all_digits t (t + 1) (by omega) c hc
  rw [parseDigits_digits (natChars t) rest acc hdig, parseDigits_stop rest _ hnd]
  have := digitsVal_natCharsAux t (t + 1) acc (by omega)
  simp only [natChars]
  rw [this]

/-- Parsing a serialized nonnegative integer. -/
lemma parseVal_natChars (f t : Nat) (rest : List Char) (hnd : headNotDigit rest = true) :
    parseVal (f + 1) (natChars t ++ rest) = some (.num (t : Int), rest) := by
  rcases hc : natCharsAux (t + 1) t with _ | ⟨d, ds⟩
  · exact absurd hc (natCharsAux_ne_nil t (t + 1) (by omega))
  · have hd : isDigitC d = true :=
      natCharsAux_all_digits t (t + 1) (by omega) d (by simp [hc])
    have hp := parseDigits_natChars t rest 0 hnd
    have hnc : natChars t = d :: ds := by simp [natChars, hc]
    rw [hnc] at hp ⊢
    simp only [List.cons_append] at hp ⊢
    simp [parseVal, hd, hp]


/-- Unfolding `parseVal` at an opening bracket whose next character is not
an immediate `]`. -/
lemma parseVal_arr_go (f : Nat) (d : Char) (cs2 : List Char) (hd : d ≠ ']') :
    parseVal (f + 1) ('[' :: d :: cs2) =
      match parseVal f (d :: cs2) with
      | some (x, rest1) =>
        match parseArrTail f rest1 with
        | some (xs, rest2) => some (.arr (x :: xs), rest2)
        | none => none
      | none => none := by
  simp +decide [parseVal, hd]

/-- Unfolding `parseVal` at an opening brace whose next character is not
an immediate closing brace. -/
lemma parseVal_obj_go (f : Nat) (d : Char) (cs2 : List Char) (hd : d ≠ '\x7d') :
    parseVal (f + 1) ('\x7b' :: d :: cs2) =
      match parseMember f (d :: cs2) with
      | some (kv, rest1) =>
        match parseObjTail f rest1 with
        | some (kvs, rest2) => some (.obj (kv :: kvs), rest2)
        | none => none
      | none => none := by
  simp +decide [parseVal, hd]

lemma parseArrTail_comma (f : Nat) (cs : List Char) :
    parseArrTail (f + 1) (',' :: cs) =
      match parseVal f cs with
      | some (x, rest1) =>
        match parseArrTail f rest1 with
        | some (xs, rest2) => some (x :: xs, rest2)
        | none => none
      | none => none := by
  simp +decide [parseArrTail]

lemma parseObjTail_comma (f : Nat) (cs : List Char) :
    parseObjTail (f + 1) (',' :: cs) =
      match parseMember f cs with
      | some (kv, rest1) =>
        match parseObjTail f rest1 with
        | some (kvs, rest2) => some (kv :: kvs, rest2)
        | none => none
      | none => none := by
  simp +decide [parseObjTail]

set_option maxHeartbeats 1000000

/-- Main round-trip property, by induction on the parsing fuel. -/
lemma parse_rt : ∀ fuel : Nat,
    (∀ j rest, Fval j ≤ fuel → headNotDigit rest = true →
      parseVal fuel (stringifyVal j ++ rest) = some (j, rest)) ∧
    (∀ xs rest, Farr xs ≤ fuel →
      parseArrTail fuel (stringifyArrTail xs ++ ']' :: rest) = some (xs, rest)) ∧
    (∀ kv rest, Fmem kv ≤ fuel → headNotDigit rest = true →
      parseMember fuel (stringifyMember kv ++ rest) = some (kv, rest)) ∧
    (∀ kvs rest, Fobj kvs ≤ fuel →
      parseObjTail fuel (stringifyObjTail kvs ++ '\x7d' :: rest) = some (kvs, rest)) := by
  intro fuel
  induction fuel with
  | zero =>
    refine ⟨?_, ?_, ?_, ?_⟩
    · intro j rest hF _; exact absurd (le_trans (Fval_pos j) hF) (by omega)
    · intro xs rest hF; exact absurd (le_trans (Farr_pos xs) hF) (by omega)
    · intro kv rest hF _; exact absurd (le_trans (Fmem_pos kv) hF) (by omega)
    · intro kvs rest hF; exact absurd (le_trans (Fobj_pos kvs) hF) (by omega)
  | succ f ihf =>
    obtain ⟨ih1, ih2, ih3, ih4⟩ := ihf
    have hmem : ∀ kv rest, Fmem kv ≤ f + 1 → headNotDigit rest = true →
        parseMember (f + 1) (stringifyMember kv ++ rest) = some (kv, rest) := by
      rintro ⟨k, v⟩ rest hF hnd
      have hFv : Fval v ≤ f := by simp [Fmem] at hF; omega
      have hshape : stringifyMember (k, v) ++ rest =
          '"' :: (escChars k ++ ('"' :: (':' :: (stringifyVal v ++ rest)))) := by
        simp [stringifyMember]
      rw [hshape]
      have hlen : k.length < (escChars k ++ ('"' :: (':' :: (stringifyVal v ++ rest)))).length + 1 := by
        have := escChars_length k
        simp [List.length_append]
        omega
      have hs := parseStrBody_escChars k (':' :: (stringifyVal v ++ rest)) _ hlen
      have hv := ih1 v rest hFv hnd
      simp only [parseMember]
      rw [hs]
      simp +decide [hv]
    refine ⟨?_, ?_, hmem, ?_⟩
    · intro j rest hF hnd
      cases j with
      | null => rfl
      | bool b => cases b <;> rfl
      | num i =>
        by_cases hi : i < 0
        · have hsh : stringifyVal (.num i) ++ rest = '-' :: (natChars i.natAbs ++ rest) := by
            simp [stringifyVal, intChars, hi]
          rw [hsh]
          rcases hc : natCharsAux (i.natAbs + 1) i.natAbs with _ | ⟨d, ds⟩
          · exact absurd hc (natCharsAux_ne_nil i.natAbs (i.natAbs + 1) (by omega))
          · have hd : isDigitC d = true :=
              natCharsAux_all_digits i.natAbs (i.natAbs + 1) (by omega) d (by simp [hc])
            have hp := parseDigits_natChars i.natAbs rest 0 hnd
            have hnc : natChars i.natAbs = d :: ds := by simp [natChars, hc]
            rw [hnc] at hp ⊢
            simp only [List.cons_append] at hp ⊢
            have habs : |i| = -i := abs_of_neg hi
            simp +decide [parseVal, hd, hp, habs]
        · have hsh : stringifyVal (.num i) ++ rest = natChars i.toNat ++ rest := by
            simp [stringifyVal, intChars, hi]
          rw [hsh, parseVal_natChars f i.toNat rest hnd]
          have : ((i.toNat : Nat) : Int) = i := Int.toNat_of_nonneg (by omega)
          rw [this]
      | str s =>
        have hsh : stringifyVal (.str s) ++ rest = '"' :: (escChars s ++ ('"' :: rest)) := by
          simp [stringifyVal]
        rw [hsh]
        have hlen : s.length < (escChars s ++ ('"' :: rest)).length + 1 := by
          have := escChars_length s
          simp [List.length_append]
          omega
        have hs := parseStrBody_escChars s rest _ hlen
        simp only [parseVal]
        rw [hs]
        simp +decide
      | arr xs =>
        cases xs with
        | nil => rfl
        | cons x xs =>
          obtain ⟨d, ds, hds, hne1, _⟩ := stringify_head x
          have hF1 : Fval x ≤ f := by
            have := Farr_pos xs; simp [Fval] at hF; omega
          have hF2 : Farr xs ≤ f := by
            have := Fval_pos x; simp [Fval] at hF; omega
          have hnd2 : headNotDigit (stringifyArrTail xs ++ (']' :: rest)) = true := by
            cases xs <;> simp +decide [stringifyArrTail, headNotDigit]
          have h1 := ih1 x (stringifyArrTail xs ++ (']' :: rest)) hF1 hnd2
          have h2 := ih2 xs rest hF2
          have hsh : stringifyVal (.arr (x :: xs)) ++ rest =
              '[' :: (stringifyVal x ++ (stringifyArrTail xs ++ (']' :: rest))) := by
            simp [stringifyVal]
          have hcont : stringifyVal x ++ (stringifyArrTail xs ++ (']' :: rest)) =
              d :: (ds ++ (stringifyArrTail xs ++ (']' :: rest))) := by
            rw [hds]; simp
          rw [hsh, hcont, parseVal_arr_go f d _ hne1, ← hcont, h1]
          simp [h2]
      | obj kvs =>
        cases kvs with
        | nil => rfl
        | cons kv kvs =>
          have hF1 : Fmem kv ≤ f := by
            have := Fobj_pos kvs; simp [Fval] at hF; omega
          have hF2 : Fobj kvs ≤ f := by
            have := Fmem_pos kv; simp [Fval] at hF; omega
          have hnd2 : headNotDigit (stringifyObjTail kvs ++ ('\x7d' :: rest)) = true := by
            cases kvs <;> simp +decide [stringifyObjTail, stringifyMember, headNotDigit]
          have h1 := ih3 kv (stringifyObjTail kvs ++ ('\x7d' :: rest)) hF1 hnd2
          have h2 := ih4 kvs rest hF2
          have hsh : stringifyVal (.obj (kv :: kvs)) ++ rest =
              '\x7b' :: (stringifyMember kv ++ (stringifyObjTail kvs ++ ('\x7d' :: rest))) := by
            simp [stringifyVal]
          obtain ⟨k, v⟩ := kv
          have hcont : stringifyMember (k, v) ++ (stringifyObjTail kvs ++ ('\x7d' :: rest)) =
              '"' :: ((escChars k ++ ('"' :: (':' :: stringifyVal v))) ++
                (stringifyObjTail kvs ++ ('\x7d' :: rest))) := by
            simp [stringifyMember]
          rw [hsh, hcont, parseVal_obj_go f '"' _ (by decide), ← hcont, h1]
          simp [h2]
    · intro xs rest hF
      cases xs with
      | nil => rfl
      | cons x xs =>
        have hF1 : Fval x ≤ f := by
          have := Farr_pos xs; simp [Farr] at hF; omega
        have hF2 : Farr xs ≤ f := by
          have := Fval_pos x; simp [Farr] at hF; omega
        have hnd2 : headNotDigit (stringifyArrTail xs ++ (']' :: rest)) = true := by
          cases xs <;> simp +decide [stringifyArrTail, headNotDigit]
        have h1 := ih1 x (stringifyArrTail xs ++ (']' :: rest)) hF1 hnd2
        have h2 := ih2 xs rest hF2
        have hsh : stringifyArrTail (x :: xs) ++ (']' :: rest) =
            ',' :: (stringifyVal x ++ (stringifyArrTail xs ++ (']' :: rest))) := by
          simp [stringifyArrTail]
        rw [hsh, parseArrTail_comma f _, h1]
        simp [h2]
    · intro kvs rest hF
      cases kvs with
      | nil => rfl
      | cons kv kvs =>
        have hF1 : Fmem kv ≤ f := by
          have := Fobj_pos kvs; simp [Fobj] at hF; omega
        have hF2 : Fobj kvs ≤ f := by
          have := Fmem_pos kv; simp [Fobj] at hF; omega
        have hnd2 : headNotDigit (stringifyObjTail kvs ++ ('\x7d' :: rest)) = true := by
          cases kvs <;> simp +decide [stringifyObjTail, stringifyMember, headNotDigit]
        have h1 := ih3 kv (stringifyObjTail kvs ++ ('\x7d' :: rest)) hF1 hnd2
        have h2 := ih4 kvs rest hF2
        have hsh : stringifyObjTail (kv :: kvs) ++ ('\x7d' :: rest) =
            ',' :: (stringifyMember kv ++ (stringifyObjTail kvs ++ ('\x7d' :: rest))) := by
          simp [stringifyObjTail]
        rw [hsh, parseObjTail_comma f _, h1]
        simp [h2]

mutual
/-- The fuel measure is dominated by the serialized length, so
`jsonParse`'s fuel budget is always sufficient for `stringifyVal` output. -/
theorem Fval_le : (j : Json) → Fval j ≤ 2 * (stringifyVal j).length
  | .null => by simp [Fval, stringifyVal]
  | .bool b => by cases b <;> simp [Fval, stringifyVal]
  | .num i => by
    have hnil := natCharsAux_ne_nil i.toNat (i.toNat + 1) (by omega)
    have hnil2 := natCharsAux_ne_nil i.natAbs (i.natAbs + 1) (by omega)
    have hl := List.length_pos.mpr hnil
    have hl2 := List.length_pos.mpr hnil2
    simp only [Fval, stringifyVal, intChars, natChars]
    split_ifs <;> simp <;> omega
  | .str s => by simp [Fval, stringifyVal]; omega
  | .arr [] => by simp [Fval, stringifyVal]
  | .arr (x :: xs) => by
    have h1 := Fval_le x
    have h2 := Farr_le xs
    simp only [Fval, stringifyVal, List.length_append, List.length_cons]
    simp
    omega
  | .obj [] => by simp [Fval, stringifyVal]
  | .obj (kv :: kvs) => by
    have h1 := Fmem_le kv
    have h2 := Fobj_le kvs
    simp only [Fval, stringifyVal, List.length_append, List.length_cons]
    simp
    omega

theorem Farr_le : (xs : List Json) → Farr xs ≤ 2 * (stringifyArrTail xs).length + 1
  | [] => by simp [Farr, stringifyArrTail]
  | x :: xs => by
    have h1 := Fval_le x
    have h2 := Farr_le xs
    simp only [Farr, stringifyArrTail, List.length_append, List.length_cons]
    omega

theorem Fmem_le : (kv : List Char × Json) → Fmem kv ≤ 2 * (stringifyMember kv).length
  | (k, v) => by
    have h1 := Fval_le v
    simp only [Fmem, stringifyMember, List.length_append, List.length_cons]
    omega

theorem Fobj_le : (kvs : List (List Char × Json)) → Fobj kvs ≤ 2 * (stringifyObjTail kvs).length + 1
  | [] => by simp [Fobj, stringifyObjTail]
  | kv :: kvs => by
    have h1 := Fmem_le kv
    have h2 := Fobj_le kvs
    simp only [Fobj, stringifyObjTail, List.length_append, List.length_cons]
    omega
end

/-- Serialization followed by parsing is the identity on JSON values. -/
theorem jsonParse_stringify (j : Json) : jsonParse (stringifyVal j) = some j := by
  have h := (parse_rt (2 * (stringifyVal j).length + 1)).1 j []
    (by have := Fval_le j; omega) rfl
  simp only [List.append_nil] at h
  simp [jsonParse, h]

/-- `parseJsonSafe` round-trips every serialized value, for any fallback. -/
theorem parseJsonSafe_stringify (j : Json) (fallback : Json) :
    parseJsonSafe (stringifyVal j) fallback = j := by
  simp [parseJsonSafe, jsonParse_stringify]

/-! ## Data model (sqlite schema, src/db.js lines 40-90)

Tables are lists of rows in rowid order.  `TEXT` columns are `List Char`,
timestamps are abstract `Nat`s.  The `CHECK` constraints on `blocks.type`
and `users.role` are reflected by inductive column types; the `CHECK`
constraints on `pages.audience` / `pages.status` are kept as string
columns validated at insertion, since the page form submits free text. -/

inductive BlockType where
  | text
  | image
  | video
  | callout
  | quiz
deriving DecidableEq

inductive Role where
  | admin
  | editor
deriving DecidableEq

structure User where
  id : Nat
  username : List Char
  password_hash : List Char
  role : Role
  created_at : Nat
deriving DecidableEq

structure Page where
  id : Nat
  title : List Char
  slug : List Char
  audience : List Char
  status : List Char
  created_at : Nat
  updated_at : Nat
deriving DecidableEq

structure Block where
  id : Nat
  page_id : Nat
  type : BlockType
  data_json : List Char
  position : Nat
  created_at : Nat
  updated_at : Nat
deriving DecidableEq

/-- The persistent store (`media` is not modelled: no claim concerns it). -/
structure DB where
  users : List User
  pages : List Page
  blocks : List Block
deriving DecidableEq

/-- JavaScript `a || b` on strings: the left operand unless it is empty
(missing form fields are the empty string after `req.body.x || ""`). -/
def jsOr (a b : List Char) : List Char := if a = [] then b else a

/-- `safeSlug` (src/db.js line 160): `slugify(input, 'lower': true,
'strict': true, 'trim': true)` - lowercase, spaces to hyphens, all other
non-alphanumeric characters dropped. -/
def safeSlug (s : List Char) : List Char :=
  (s.map Char.toLower).filterMap
    (fun c => if c = ' ' then some '-' else if c.isAlphanum || c = '-' then some c else none)

/-- `AUTOINCREMENT`: one more than the largest id ever used (per table). -/
def freshBlockId (db : DB) : Nat := (db.blocks.map (fun b => b.id)).foldr max 0 + 1

def freshPageId (db : DB) : Nat := (db.pages.map (fun p => p.id)).foldr max 0 + 1

def freshUserId (db : DB) : Nat := (db.users.map (fun u => u.id)).foldr max 0 + 1

/-- Ordering of blocks by their `position` column. -/
def blockLE (a b : Block) : Prop := a.position ≤ b.position

instance : DecidableRel blockLE := fun a b => Nat.decLe a.position b.position

instance : IsTotal Block blockLE := ⟨fun a b => Nat.le_total a.position b.position⟩

instance : IsTrans Block blockLE := ⟨fun _ _ _ h1 h2 => Nat.le_trans h1 h2⟩

/-- `SELECT * FROM blocks WHERE page_id=?` (row order). -/
def blocksOf (db : DB) (pid : Nat) : List Block :=
  db.blocks.filter (fun b => b.page_id == pid)

/-- `SELECT * FROM blocks WHERE page_id=? ORDER BY position ASC`. -/
def listing (db : DB) (pid : Nat) : List Block :=
  List.insertionSort blockLE (blocksOf db pid)

def posList (db : DB) (pid : Nat) : List Nat :=
  (blocksOf db pid).map (fun b => b.position)

/-- The per-page ordering invariant: the multiset of position values of a
page's blocks is exactly `(1, 2, ..., N)` for `N` the page's block count. -/
def positionsOk (db : DB) (pid : Nat) : Prop :=
  (posList db pid : Multiset Nat) = (List.range' 1 (blocksOf db pid).length : Multiset Nat)

instance (db : DB) (pid : Nat) : Decidable (positionsOk db pid) :=
  inferInstanceAs (Decidable (_ = _))

/-- `blocks.id` is a primary key: no two rows share an id. -/
def idsNodup (db : DB) : Prop := (db.blocks.map (fun b => b.id)).Nodup

instance (db : DB) : Decidable (idsNodup db) :=
  inferInstanceAs (Decidable (List.Nodup _))

/-- Well-formedness: primary-key uniqueness plus the ordering invariant on
every page that has blocks (pages without blocks satisfy it trivially). -/
def DbInv (db : DB) : Prop :=
  idsNodup db ∧ ∀ pid ∈ db.blocks.map (fun b => b.page_id), positionsOk db pid

instance (db : DB) : Decidable (DbInv db) := inferInstanceAs (Decidable (_ ∧ _))

/-! ## Block payloads -/

/-- Seed content of a newly added block (src/db.js lines 305-310). -/
def defaultPayload : BlockType → Json
  | .text => .obj [("heading".data, .str []), ("body".data, .str [])]
  | .image => .obj [("heading".data, .str []), ("imageUrl".data, .str []),
      ("caption".data, .str [])]
  | .video => .obj [("heading".data, .str []), ("mode".data, .str "youtube".data),
      ("youtubeUrl".data, .str []), ("mp4Url".data, .str []), ("caption".data, .str [])]
  | .callout => .obj [("kind".data, .str "Key idea".data), ("body".data, .str [])]
  | .quiz => .obj [("title".data, .str "Quick Quiz".data),
      ("questions".data, .arr [.obj [("q".data, .str "Sample question 1?".data),
        ("options".data, .arr [.str "A".data, .str "B".data, .str "C".data, .str "D".data]),
        ("answer".data, .num 0)]])]

/-- The payload object built by the edit handler for a text block
(src/db.js line 336), and the shape of the data-model payload table. -/
def textPayload (heading body : List Char) : Json :=
  .obj [("heading".data, .str heading), ("body".data, .str body)]

def imagePayload (heading imageUrl caption : List Char) : Json :=
  .obj [("heading".data, .str heading), ("imageUrl".data, .str imageUrl),
    ("caption".data, .str caption)]

def videoPayload (heading mode youtubeUrl mp4Url caption : List Char) : Json :=
  .obj [("heading".data, .str heading), ("mode".data, .str mode),
    ("youtubeUrl".data, .str youtubeUrl), ("mp4Url".data, .str mp4Url),
    ("caption".data, .str caption)]

def calloutPayload (kind body : List Char) : Json :=
  .obj [("kind".data, .str kind), ("body".data, .str body)]

def quizQuestion (q : List Char) (options : List (List Char)) (answer : Nat) : Json :=
  .obj [("q".data, .str q), ("options".data, .arr (options.map Json.str)),
    ("answer".data, .num answer)]

def quizPayload (title : List Char)
    (questions : List (List Char × List (List Char) × Nat)) : Json :=
  .obj [("title".data, .str title),
    ("questions".data, .arr (questions.map (fun qa => quizQuestion qa.1 qa.2.1 qa.2.2)))]

/-- JavaScript property access `parsed.questions` as it behaves on a
`JSON.parse` result: only objects carry the field; duplicate keys keep the
last occurrence. -/
def jsField (j : Json) (key : List Char) : Option Json :=
  match j with
  | .obj kvs => kvs.foldl (fun acc kv => if kv.1 = key then some kv.2 else acc) none
  | _ => none

/-- JavaScript falsiness of a `JSON.parse` result (`!parsed`). -/
def jsFalsy : Json → Bool
  | .null => true
  | .bool b => !b
  | .num i => i == 0
  | .str s => s.isEmpty
  | .arr _ => false
  | .obj _ => false

/-- `Array.isArray(parsed.questions)`. -/
def questionsIsArray (j : Json) : Bool :=
  match jsField j ("questions".data) with
  | some (.arr _) => true
  | _ => false

/-- The quiz-edit validation (src/db.js line 351):
`!(!parsed || !Array.isArray(parsed.questions))`. -/
def quizOk (parsed : Json) : Bool := !(jsFalsy parsed) && questionsIsArray parsed

/-- `renderBlocks` (src/db.js lines 173-175): attach
`parseJsonSafe(b.data_json, empty-object)` to every block row. -/
def renderBlocks (bs : List Block) : List (Block × Json) :=
  bs.map (fun b => (b, parseJsonSafe b.data_json (Json.obj [])))

/-! ## Route handlers (src/db.js lines 196-450) -/

inductive BlockOpResult where
  | notFound
  | redirect (pageId : Nat)
deriving DecidableEq

inductive EditResult where
  | notFound
  | formError (msg : String) (redisplay : Json)
  | redirect (pageId : Nat)

inductive CreatePageResult where
  | redirect
  | formError (msg : String)
deriving DecidableEq

inductive CreateUserResult where
  | redirect
  | formError (msg : String)
deriving DecidableEq

inductive DeletePageResult where
  | forbidden (msg : String)
  | redirect
deriving DecidableEq

inductive DeleteUserResult where
  | badRequest (msg : String)
  | redirect
deriving DecidableEq

inductive LoginResult where
  | failure (error : String)
  | success (id : Nat) (username : List Char) (role : Role)
deriving DecidableEq

/-- `UPDATE blocks SET position=?, updated_at=? WHERE id=?`. -/
def updateBlockPos (db : DB) (bid pos now : Nat) : DB :=
  { db with
    blocks := db.blocks.map
      (fun b => if b.id = bid then { b with position := pos, updated_at := now } else b) }

/-- `UPDATE blocks SET data_json=?, updated_at=? WHERE id=?`. -/
def updateBlockData (db : DB) (bid : Nat) (dataJson : List Char) (now : Nat) : DB :=
  { db with
    blocks := db.blocks.map
      (fun b => if b.id = bid then { b with data_json := dataJson, updated_at := now } else b) }

/-- `POST /admin/pages/:id/blocks/add` (src/db.js lines 296-317): look up
the page, count its blocks, insert the default payload of the chosen type
at position count+1. -/
def addBlock (db : DB) (pid : Nat) (ty : BlockType) (now : Nat) : DB × BlockOpResult :=
  match db.pages.find? (fun p => p.id == pid) with
  | none => (db, .notFound)
  | some page =>
    let cnt := (db.blocks.filter (fun b => b.page_id == page.id)).length
    let pos := cnt + 1
    let nb : Block :=
      { id := freshBlockId db, page_id := page.id, type := ty,
        data_json := stringifyVal (defaultPayload ty), position := pos,
        created_at := now, updated_at := now }
    ({ db with blocks := db.blocks ++ [nb] }, .redirect page.id)

/-- The renumber loop of the block-delete handler (src/db.js lines
367-370): walk the position-ordered rows, assigning consecutive positions
from `k` (called with `k = 1`). -/
def applyRenumber : DB → List Block → Nat → Nat → DB
  | db, [], _, _ => db
  | db, blk :: rest, k, now => applyRenumber (updateBlockPos db blk.id k now) rest (k + 1) now

/-- `POST /admin/blocks/:blockId/delete` (src/db.js lines 361-372):
delete the row, then renumber the page's remaining blocks 1..N in
position order. -/
def deleteBlock (db : DB) (bid : Nat) (now : Nat) : DB × BlockOpResult :=
  match db.blocks.find? (fun b => b.id == bid) with
  | none => (db, .notFound)
  | some block =>
    let pageId := block.page_id
    let db1 := { db with blocks := db.blocks.filter (fun b => !(b.id == block.id)) }
    let bs := listing db1 pageId
    (applyRenumber db1 bs 1 now, .redirect pageId)

/-- `blocks.findIndex(b => b.id === block.id)` (src/db.js line 381). -/
def idIndex : List Block → Nat → Option Nat
  | [], _ => none
  | x :: t, bid => if x.id = bid then some 0 else (idIndex t bid).map (fun i => i + 1)

def dummyBlock : Block :=
  { id := 0, page_id := 0, type := .text, data_json := [], position := 0,
    created_at := 0, updated_at := 0 }

/-- `POST /admin/blocks/:blockId/move` (src/db.js lines 374-394): locate
the block in the position-ordered list, compute the swap index from the
direction, no-op if out of bounds, otherwise swap the two rows'
`position` values (values captured before either update). -/
def moveBlock (db : DB) (bid : Nat) (dir : List Char) (now : Nat) : DB × BlockOpResult :=
  match db.blocks.find? (fun b => b.id == bid) with
  | none => (db, .notFound)
  | some block =>
    let pageId := block.page_id
    let bs := listing db pageId
    match idIndex bs block.id with
    | none => (db, .redirect pageId)
    | some idx =>
      let swapIdx : Int :=
        if dir = "up".data then (idx : Int) - 1
        else if dir = "down".data then (idx : Int) + 1
        else (idx : Int)
      if swapIdx < 0 ∨ (bs.length : Int) ≤ swapIdx then (db, .redirect pageId)
      else
        let a := bs.getD idx dummyBlock
        let b := bs.getD swapIdx.toNat dummyBlock
        (updateBlockPos (updateBlockPos db a.id b.position now) b.id a.position now,
          .redirect pageId)

/-- `POST /admin/pages/:id/delete` (src/db.js lines 282-286): admin-gated
`DELETE FROM pages WHERE id=?`.  The schema declares
`FOREIGN KEY(page_id) REFERENCES pages(id) ON DELETE CASCADE` on the
blocks table (src/db.js line 71), but the application never issues
`PRAGMA foreign_keys = ON`, and sqlite leaves foreign-key enforcement
(including cascades) disabled by default on every connection, so the
delete statement removes only the page row and the page's block rows
remain. -/
def deletePage (db : DB) (role : Role) (pid : Nat) : DB × DeletePageResult :=
  if role ≠ Role.admin then (db, .forbidden "Only admin can delete pages.")
  else ({ db with pages := db.pages.filter (fun p => !(p.id == pid)) }, .redirect)

/-- `POST /admin/pages/new` (src/db.js lines 240-255).  The `catch`
around the INSERT renders the slug-conflict message for any statement
failure: a UNIQUE violation on `slug`, or a CHECK violation on
`audience`/`status`. -/
def createPage (db : DB) (title slug audience status : List Char) (now : Nat) :
    DB × CreatePageResult :=
  let finalSlug := safeSlug (jsOr slug (jsOr title []))
  if title = [] ∨ finalSlug = [] then (db, .formError "Title and slug are required.")
  else
    let aud := jsOr audience ("general".data)
    let st := jsOr status ("draft".data)
    if (db.pages.any (fun p => p.slug == finalSlug)) ∨
        ¬(aud = "junior".data ∨ aud = "undergrad".data ∨ aud = "general".data) ∨
        ¬(st = "draft".data ∨ st = "published".data) then
      (db, .formError "Slug already exists. Choose another.")
    else
      ({ db with
          pages := db.pages ++
            [{ id := freshPageId db, title := title, slug := finalSlug, audience := aud,
               status := st, created_at := now, updated_at := now }] }, .redirect)

/-- `POST /admin/users/new` (src/db.js lines 430-444).  `bcrypt.hash` is
abstracted as a function argument; an unrecognized role submission is
stored as editor. -/
def createUser (db : DB) (hash : List Char → List Char)
    (username password role : List Char) (now : Nat) : DB × CreateUserResult :=
  if username = [] ∨ password = [] then (db, .formError "Username and password required.")
  else if db.users.any (fun u => u.username == username) then
    (db, .formError "Username already exists.")
  else
    ({ db with
        users := db.users ++
          [{ id := freshUserId db, username := username, password_hash := hash password,
             role := if role = "admin".data then .admin else .editor,
             created_at := now }] }, .redirect)

/-- `POST /admin/users/:id/delete` (src/db.js lines 446-449): reject a
session's attempt to delete its own user id, otherwise
`DELETE FROM users WHERE id=?`. -/
def deleteUser (db : DB) (sessionUserId targetId : Nat) : DB × DeleteUserResult :=
  if targetId = sessionUserId then (db, .badRequest "You cannot delete yourself.")
  else ({ db with users := db.users.filter (fun u => !(u.id == targetId)) }, .redirect)

/-- `POST /admin/login` (src/db.js lines 213-223).  `bcrypt.compare` is
abstracted as the `verify` argument. -/
def login (db : DB) (verify : List Char → List Char → Bool)
    (username password : List Char) : LoginResult :=
  match db.users.find? (fun u => u.username == username) with
  | none => .failure "Invalid username or password"
  | some user =>
    if verify password user.password_hash then .success user.id user.username user.role
    else .failure "Invalid username or password"

/-- The submitted form fields of the block-edit handler; a missing field
is the empty string (the handler reads every field as `req.body.x || d`,
and a missing `quiz_json` fails `JSON.parse` just as the empty string
does). -/
structure EditBody where
  heading : List Char
  body : List Char
  imageUrl : List Char
  caption : List Char
  mode : List Char
  youtubeUrl : List Char
  mp4Url : List Char
  kind : List Char
  quiz_json : List Char
deriving DecidableEq

/-- `POST /admin/blocks/:blockId/edit` (src/db.js lines 327-359).  The
payload is rebuilt from the form by block type; only the quiz type can
fail validation, re-rendering the form with the previously stored payload
(`parseJsonSafe(block.data_json, empty-object)`). -/
def editBlock (db : DB) (bid : Nat) (body : EditBody) (now : Nat) : DB × EditResult :=
  match db.blocks.find? (fun b => b.id == bid) with
  | none => (db, .notFound)
  | some block =>
    match block.type with
    | .text =>
      let data := textPayload (jsOr body.heading []) (jsOr body.body [])
      (updateBlockData db block.id (stringifyVal data) now, .redirect block.page_id)
    | .image =>
      let data := imagePayload (jsOr body.heading []) (jsOr body.imageUrl [])
        (jsOr body.caption [])
      (updateBlockData db block.id (stringifyVal data) now, .redirect block.page_id)
    | .video =>
      let data := videoPayload (jsOr body.heading []) (jsOr body.mode ("youtube".data))
        (jsOr body.youtubeUrl []) (jsOr body.mp4Url []) (jsOr body.caption [])
      (updateBlockData db block.id (stringifyVal data) now, .redirect block.page_id)
    | .callout =>
      let data := calloutPayload (jsOr body.kind ("Key idea".data)) (jsOr body.body [])
      (updateBlockData db block.id (stringifyVal data) now, .redirect block.page_id)
    | .quiz =>
      let parsed := parseJsonSafe body.quiz_json Json.null
      if quizOk parsed then
        (updateBlockData db block.id (stringifyVal parsed) now, .redirect block.page_id)
      else
        (db, .formError "Invalid quiz JSON. Ensure it has \x7b title, questions: [...] \x7d."
          (parseJsonSafe block.data_json (Json.obj [])))

/-- One mutating block operation, as fired by the admin routes. -/
inductive BlockOp where
  | add (pid : Nat) (ty : BlockType) (now : Nat)
  | del (bid : Nat) (now : Nat)
  | move (bid : Nat) (dir : List Char) (now : Nat)

def applyOp (db : DB) : BlockOp → DB
  | .add pid ty now => (addBlock db pid ty now).1
  | .del bid now => (deleteBlock db bid now).1
  | .move bid dir now => (moveBlock db bid dir now).1

def applyOps (db : DB) (ops : List BlockOp) : DB := ops.foldl applyOp db

/-! ## Ordering lemmas -/

lemma listing_perm (db : DB) (pid : Nat) :
    List.Perm (listing db pid) (blocksOf db pid) :=
  List.perm_insertionSort blockLE (blocksOf db pid)

lemma listing_sorted (db : DB) (pid : Nat) : List.Sorted blockLE (listing db pid) :=
  List.sorted_insertionSort blockLE (blocksOf db pid)

lemma mem_blocksOf {db : DB} {pid : Nat} {b : Block} :
    b ∈ blocksOf db pid ↔ b ∈ db.blocks ∧ b.page_id = pid := by
  simp [blocksOf]

lemma blocksOf_ids_nodup {db : DB} (h : idsNodup db) (pid : Nat) :
    ((blocksOf db pid).map (fun b => b.id)).Nodup :=
  h.sublist ((List.filter_sublist db.blocks).map (fun b => b.id))

lemma listing_ids_nodup {db : DB} (h : idsNodup db) (pid : Nat) :
    ((listing db pid).map (fun b => b.id)).Nodup :=
  (((listing_perm db pid).map (fun b => b.id)).nodup_iff).mpr (blocksOf_ids_nodup h pid)

/-- Two rows of a well-formed table with the same id are the same row. -/
lemma id_inj {db : DB} (h : idsNodup db) {b1 b2 : Block}
    (h1 : b1 ∈ db.blocks) (h2 : b2 ∈ db.blocks) (he : b1.id = b2.id) : b1 = b2 :=
  List.inj_on_of_nodup_map h h1 h2 he

lemma positionsOk_of_not_mem {db : DB} {pid : Nat}
    (h : pid ∉ db.blocks.map (fun b => b.page_id)) : positionsOk db pid := by
  have hb : blocksOf db pid = [] := by
    rw [blocksOf, List.filter_eq_nil_iff]
    intro b hbmem
    simp only [beq_iff_eq]
    intro he
    exact h (List.mem_map.mpr ⟨b, hbmem, he⟩)
  simp [positionsOk, posList, hb]

/-- Under the invariant, every page (with or without blocks) has exact
1..N positions. -/
lemma DbInv.posOk {db : DB} (h : DbInv db) (pid : Nat) : positionsOk db pid := by
  by_cases hm : pid ∈ db.blocks.map (fun b => b.page_id)
  · exact h.2 pid hm
  · exact positionsOk_of_not_mem hm

lemma posList_nodup {db : DB} {pid : Nat} (h : positionsOk db pid) :
    (posList db pid).Nodup := by
  have hperm : List.Perm (posList db pid) (List.range' 1 (blocksOf db pid).length) :=
    Multiset.coe_eq_coe.mp h
  exact hperm.nodup_iff.mpr (List.nodup_range' 1 (blocksOf db pid).length)

/-- Filtering commutes with a row map that does not change the filtered
column. -/
lemma filter_map_comm (l : List Block) (p : Block → Bool) (f : Block → Block)
    (hf : ∀ x, p (f x) = p x) : (l.map f).filter p = (l.filter p).map f := by
  induction l with
  | nil => rfl
  | cons h t ih =>
    simp only [List.map_cons, List.filter_cons, hf]
    split <;> simp [ih]

lemma blocksOf_map (db : DB) (f : Block → Block)
    (hpage : ∀ x, (f x).page_id = x.page_id) (pid : Nat) :
    blocksOf { db with blocks := db.blocks.map f } pid = (blocksOf db pid).map f := by
  simp only [blocksOf]
  exact filter_map_comm db.blocks _ f (fun x => by simp [hpage])

lemma posList_map_congr (db : DB) (f : Block → Block)
    (hpage : ∀ x, (f x).page_id = x.page_id) (pid : Nat)
    (hpos : ∀ x ∈ blocksOf db pid, (f x).position = x.position) :
    posList { db with blocks := db.blocks.map f } pid = posList db pid := by
  simp only [posList, blocksOf_map db f hpage, List.map_map]
  exact List.map_congr_left (fun x hx => by simp [hpos x hx])

lemma positionsOk_map_congr (db : DB) (f : Block → Block)
    (hpage : ∀ x, (f x).page_id = x.page_id) (pid : Nat)
    (hpos : ∀ x ∈ blocksOf db pid, (f x).position = x.position)
    (h : positionsOk db pid) :
    positionsOk { db with blocks := db.blocks.map f } pid := by
  simp only [positionsOk, posList_map_congr db f hpage pid hpos, blocksOf_map db f hpage,
    List.length_map]
  exact h

lemma idsNodup_map (db : DB) (f : Block → Block) (hid : ∀ x, (f x).id = x.id)
    (h : idsNodup db) : idsNodup { db with blocks := db.blocks.map f } := by
  simp only [idsNodup, List.map_map]
  have : (db.blocks.map (fun b => (f b).id)) = db.blocks.map (fun b => b.id) :=
    List.map_congr_left (fun x _ => hid x)
  simpa [Function.comp_def, this] using h

/-- Swapping two list entries preserves the multiset of values. -/
lemma two_entry_swap (p1 p3 p4 : List Nat) (x y : Nat) :
    ((p1 ++ x :: (p3 ++ y :: p4) : List Nat) : Multiset Nat) =
      (p1 ++ y :: (p3 ++ x :: p4) : List Nat) := by
  refine Multiset.ext.mpr (fun v => ?_)
  simp only [Multiset.coe_count, List.count_append, List.count_cons]
  omega

/-- The combined row function of the two position updates of the move
handler, when the two target ids differ. -/
lemma double_update (db : DB) (aid bid ap bp now : Nat) (hne : aid ≠ bid) :
    (updateBlockPos (updateBlockPos db aid bp now) bid ap now).blocks =
      db.blocks.map (fun x =>
        if x.id = aid then { x with position := bp, updated_at := now }
        else if x.id = bid then { x with position := ap, updated_at := now }
        else x) := by
  simp only [updateBlockPos, List.map_map]
  refine List.map_congr_left (fun x _ => ?_)
  by_cases h1 : x.id = aid
  · simp [Function.comp_def, h1, hne, (by rw [h1]; exact hne : ¬ x.id = bid)]
  · by_cases h2 : x.id = bid <;> simp [Function.comp_def, h1, h2, Ne.symm hne]

/-- The combined row function of the two updates when the move resolved to
the same row twice (a direction other than up/down): the block's position
is rewritten to its own captured value. -/
lemma double_update_self (db : DB) (aid p now : Nat) :
    (updateBlockPos (updateBlockPos db aid p now) aid p now).blocks =
      db.blocks.map (fun x =>
        if x.id = aid then { x with position := p, updated_at := now } else x) := by
  simp only [updateBlockPos, List.map_map]
  refine List.map_congr_left (fun x _ => ?_)
  by_cases h1 : x.id = aid <;> simp [Function.comp_def, h1]

lemma idIndex_mem : ∀ {bs : List Block} {b : Block}, b ∈ bs →
    ∃ i, idIndex bs b.id = some i := by
  intro bs
  induction bs with
  | nil => intro b h; cases h
  | cons x t ih =>
    intro b h
    by_cases hx : x.id = b.id
    · exact ⟨0, by simp [idIndex, hx]⟩
    · rcases List.mem_cons.mp h with rfl | hmem
      · exact absurd rfl hx
      · obtain ⟨i, hi⟩ := ih hmem
        exact ⟨i + 1, by simp [idIndex, hx, hi]⟩

lemma idIndex_eq_none {bs : List Block} {bid : Nat} (h : ∀ x ∈ bs, x.id ≠ bid) :
    idIndex bs bid = none := by
  induction bs with
  | nil => rfl
  | cons x t ih =>
    simp only [idIndex, h x (by simp), if_false, reduceIte]
    rw [ih (fun y hy => h y (by simp [hy]))]
    rfl

lemma idIndex_some : ∀ {bs : List Block} {bid i : Nat},
    idIndex bs bid = some i → i < bs.length ∧ ∃ y ∈ bs, y.id = bid := by
  intro bs
  induction bs with
  | nil => intro bid i h; cases h
  | cons x t ih =>
    intro bid i h
    by_cases hx : x.id = bid
    · have hi : i = 0 := by
        simp [idIndex, hx] at h
        omega
      subst hi
      exact ⟨by simp, x, by simp, hx⟩
    · simp only [idIndex, hx, if_false, reduceIte] at h
      rcases ht : idIndex t bid with _ | j
      · rw [ht] at h; cases h
      · rw [ht] at h
        simp only [Option.map_some', Option.some_inj] at h
        subst h
        obtain ⟨hlt, y, hy, hyid⟩ := ih ht
        refine ⟨by simp; omega, y, by simp [hy], hyid⟩

lemma idIndex_getD : ∀ {bs : List Block} {bid i : Nat},
    idIndex bs bid = some i → (bs.getD i dummyBlock).id = bid := by
  intro bs
  induction bs with
  | nil => intro bid i h; cases h
  | cons x t ih =>
    intro bid i h
    by_cases hx : x.id = bid
    · have hi : i = 0 := by
        simp [idIndex, hx] at h
        omega
      subst hi
      simpa using hx
    · simp only [idIndex, hx, if_false, reduceIte] at h
      rcases ht : idIndex t bid with _ | j
      · rw [ht] at h; cases h
      · rw [ht] at h
        simp only [Option.map_some', Option.some_inj] at h
        subst h
        simpa using ih ht

/-- The renumber loop is a single map over the table: each listed id gets
position `k +` its index in the list, every other row is untouched. -/
lemma applyRenumber_eq_map :
    ∀ (bs : List Block) (db : DB) (k now : Nat), ((bs.map (fun b => b.id)).Nodup) →
      (applyRenumber db bs k now).blocks = db.blocks.map (fun b =>
        match idIndex bs b.id with
        | some i => { b with position := k + i, updated_at := now }
        | none => b) := by
  intro bs
  induction bs with
  | nil =>
    intro db k now _
    simp [applyRenumber, idIndex]
  | cons blk rest ih =>
    intro db k now hnodup
    have hnr : ((rest.map (fun b => b.id)).Nodup) := by
      simp only [List.map_cons, List.nodup_cons] at hnodup
      exact hnodup.2
    have hblk : blk.id ∉ rest.map (fun b => b.id) := by
      simp only [List.map_cons, List.nodup_cons] at hnodup
      exact hnodup.1
    simp only [applyRenumber]
    rw [ih (updateBlockPos db blk.id k now) (k + 1) now hnr]
    simp only [updateBlockPos, List.map_map]
    refine List.map_congr_left (fun x _ => ?_)
    by_cases hx : x.id = blk.id
    · have hnone : idIndex rest blk.id = none :=
        idIndex_eq_none (fun y hy hxy => hblk (List.mem_map.mpr ⟨y, hy, hxy⟩))
      simp [Function.comp_def, hx, idIndex, hnone]
    · have hx2 : ¬ blk.id = x.id := fun h => hx h.symm
      rcases hrest : idIndex rest x.id with _ | j
      · simp [Function.comp_def, hx, hx2, hrest, idIndex]
      · have harith : k + 1 + j = k + (j + 1) := by omega
        simp [Function.comp_def, hx, hx2, hrest, idIndex, harith]

/-- Exchanging the position values of two distinct rows (by id) of a
duplicate-free table permutes the positions. -/
lemma swap_posList (l : List Block) (a b : Block) (ha : a ∈ l) (hb : b ∈ l)
    (hnodup : (l.map (fun x => x.id)).Nodup) (hne : a.id ≠ b.id) :
    ((l.map (fun x => if x.id = a.id then b.position
        else if x.id = b.id then a.position else x.position) : List Nat) : Multiset Nat) =
      (l.map (fun x => x.position) : Multiset Nat) := by
  have hln : l.Nodup := hnodup.of_map _
  have hab : b ≠ a := fun he => hne (by rw [he])
  have hb1 : b ∈ l.erase a := (hln.mem_erase_iff).mpr ⟨hab, hb⟩
  have hperm : List.Perm l (a :: b :: (l.erase a).erase b) :=
    ((List.perm_cons_erase ha).trans
      (List.Perm.cons a (List.perm_cons_erase hb1)))
  have hrest : ∀ y ∈ (l.erase a).erase b, y.id ≠ a.id ∧ y.id ≠ b.id := by
    intro y hy
    have hy1 : y ∈ l.erase a := ((hln.erase a).mem_erase_iff.mp hy).2
    have hyb : y ≠ b := ((hln.erase a).mem_erase_iff.mp hy).1
    have hya : y ≠ a := (hln.mem_erase_iff.mp hy1).1
    have hyl : y ∈ l := (hln.mem_erase_iff.mp hy1).2
    constructor
    · exact fun he => hya (List.inj_on_of_nodup_map hnodup hyl ha he)
    · exact fun he => hyb (List.inj_on_of_nodup_map hnodup hyl hb he)
  have h1 : ((l.map (fun x => if x.id = a.id then b.position
      else if x.id = b.id then a.position else x.position) : List Nat) : Multiset Nat) =
      (((a :: b :: (l.erase a).erase b).map (fun x => if x.id = a.id then b.position
        else if x.id = b.id then a.position else x.position) : List Nat) : Multiset Nat) :=
    Multiset.coe_eq_coe.mpr (hperm.map _)
  have h2 : ((l.map (fun x => x.position) : List Nat) : Multiset Nat) =
      (((a :: b :: (l.erase a).erase b).map (fun x => x.position) : List Nat) : Multiset Nat) :=
    Multiset.coe_eq_coe.mpr (hperm.map _)
  rw [h1, h2]
  have hcong : ((l.erase a).erase b).map (fun x => if x.id = a.id then b.position
      else if x.id = b.id then a.position else x.position) =
      ((l.erase a).erase b).map (fun x => x.position) :=
    List.map_congr_left (fun y hy => by simp [(hrest y hy).1, (hrest y hy).2])
  simp only [List.map_cons, hcong, if_pos rfl, Ne.symm hne, if_neg, reduceIte]
  simp [Ne.symm hne]
  exact List.Perm.swap _ _ _

lemma range1_concat : ∀ (s n : Nat), List.range' s (n + 1) = List.range' s n ++ [s + n] := by
  intro s n
  induction n generalizing s with
  | zero => simp
  | succ n ih =>
    have harith : s + 1 + n = s + (n + 1) := by omega
    rw [List.range'_succ, ih (s + 1), List.range'_succ, harith]
    simp [List.cons_append]

lemma le_foldr_max : ∀ (ids : List Nat) (x : Nat), x ∈ ids → x ≤ ids.foldr max 0 := by
  intro ids
  induction ids with
  | nil => intro x h; cases h
  | cons y t ih =>
    intro x h
    have hstep : List.foldr max 0 (y :: t) = max y (List.foldr max 0 t) := rfl
    rcases List.mem_cons.mp h with rfl | h
    · rw [hstep]; exact le_max_left _ _
    · rw [hstep]; exact le_trans (ih x h) (le_max_right _ _)

lemma freshBlockId_not_mem (db : DB) :
    freshBlockId db ∉ db.blocks.map (fun b => b.id) := by
  intro h
  have := le_foldr_max _ _ h
  simp only [freshBlockId] at this
  omega

lemma DbInv_of {db : DB} (h1 : idsNodup db) (h2 : ∀ q, positionsOk db q) : DbInv db :=
  ⟨h1, fun pid _ => h2 pid⟩

/-- Appending a block keeps ids unique and keeps every page's positions
exactly 1..N. -/
lemma addBlock_inv (db : DB) (pid : Nat) (ty : BlockType) (now : Nat) (h : DbInv db) :
    DbInv (addBlock db pid ty now).1 := by
  rcases hfind : db.pages.find? (fun p => p.id == pid) with _ | page
  · simpa [addBlock, hfind] using h
  · simp only [addBlock, hfind]
    set nb : Block :=
      { id := freshBlockId db, page_id := page.id, type := ty,
        data_json := stringifyVal (defaultPayload ty),
        position := (db.blocks.filter (fun b => b.page_id == page.id)).length + 1,
        created_at := now, updated_at := now } with hnb
    refine DbInv_of ?_ ?_
    · simp only [idsNodup, List.map_append, List.map_cons, List.map_nil]
      rw [List.nodup_append]
      refine ⟨h.1, by simp, ?_⟩
      intro x hx hx2
      simp only [List.mem_cons, List.not_mem_nil, or_false] at hx2
      subst hx2
      exact freshBlockId_not_mem db hx
    · intro q
      have hfl : blocksOf { db with blocks := db.blocks ++ [nb] } q =
          blocksOf db q ++ List.filter (fun b => b.page_id == q) [nb] := by
        simp [blocksOf, List.filter_append]
      by_cases hq : page.id = q
      · subst hq
        have hnbq : List.filter (fun b => b.page_id == page.id) [nb] = [nb] := by
          simp [hnb]
        have hfl2 : blocksOf { db with blocks := db.blocks ++ [nb] } page.id =
            blocksOf db page.id ++ [nb] := by rw [hfl, hnbq]
        have hposnb : nb.position = (blocksOf db page.id).length + 1 := rfl
        have hp := h.posOk page.id
        simp only [positionsOk, posList] at hp ⊢
        rw [hfl2]
        simp only [List.map_append, List.map_cons, List.map_nil, List.length_append,
          List.length_cons, List.length_nil, hposnb]
        rw [show (blocksOf db page.id).length + (0 + 1) = (blocksOf db page.id).length + 1
          from by omega]
        rw [range1_concat 1 (blocksOf db page.id).length]
        simp only [blocksOf] at hp ⊢
        refine Multiset.ext.mpr (fun v => ?_)
        have hc := congrArg (Multiset.count v) hp
        simp only [Multiset.coe_count] at hc ⊢
        simp only [List.count_append, List.count_cons, List.count_nil]
        split_ifs <;> (try simp only [beq_iff_eq] at *) <;> omega
      · have hnbq : List.filter (fun b => b.page_id == q) [nb] = [] := by
          simp [hnb, List.filter_cons, List.filter_nil, beq_iff_eq, hq]
        have hp := h.posOk q
        simpa [positionsOk, posList, hfl, hnbq] using hp

/-- Over a duplicate-free list, looking each element's own id up again
yields its index: the renumber pass assigns 0,1,...,N-1 (plus offset). -/
lemma map_idIndex_range :
    ∀ bs : List Block, ((bs.map (fun b => b.id)).Nodup) →
      bs.map (fun b => (idIndex bs b.id).getD 0) = List.range bs.length := by
  intro bs
  induction bs with
  | nil => intro _; rfl
  | cons blk rest ih =>
    intro hnodup
    rw [List.map_cons, List.nodup_cons] at hnodup
    obtain ⟨hblk, hnr⟩ := hnodup
    have hhead : (idIndex (blk :: rest) blk.id).getD 0 = 0 := by simp [idIndex]
    have htail : rest.map (fun b => (idIndex (blk :: rest) b.id).getD 0) =
        rest.map (fun b => (idIndex rest b.id).getD 0 + 1) := by
      refine List.map_congr_left (fun x hx => ?_)
      have hxne : x.id ≠ blk.id := fun he =>
        hblk (by rw [← he]; exact List.mem_map.mpr ⟨x, hx, rfl⟩)
      have hne2 : ¬ blk.id = x.id := fun he => hxne he.symm
      obtain ⟨i, hi⟩ := idIndex_mem hx
      simp [idIndex, hne2, hi]
    rw [List.map_cons, hhead, htail, List.length_cons, List.range_succ_eq_map]
    rw [show rest.map (fun b => (idIndex rest b.id).getD 0 + 1) =
        (rest.map (fun b => (idIndex rest b.id).getD 0)).map (fun i => i + 1) from by
      rw [List.map_map]; rfl]
    rw [ih hnr]

lemma applyRenumber_users_pages : ∀ (bs : List Block) (db : DB) (k now : Nat),
    (applyRenumber db bs k now).users = db.users ∧
      (applyRenumber db bs k now).pages = db.pages := by
  intro bs
  induction bs with
  | nil => intro db k now; exact ⟨rfl, rfl⟩
  | cons y t ih =>
    intro db k now
    simp only [applyRenumber]
    have := ih (updateBlockPos db y.id k now) (k + 1) now
    simpa [updateBlockPos] using this

/-- Deleting a block self-heals: afterwards every page's positions are
again exactly 1..N (renumbering recomputes them from scratch). -/
lemma deleteBlock_inv (db : DB) (bid now : Nat) (h : DbInv db) :
    DbInv (deleteBlock db bid now).1 := by
  rcases hfind : db.blocks.find? (fun b => b.id == bid) with _ | block
  · simpa [deleteBlock, hfind] using h
  · have hbmem : block ∈ db.blocks := List.mem_of_find?_eq_some hfind
    simp only [deleteBlock, hfind]
    set pid0 := block.page_id with hpid0
    set db1 : DB := { db with blocks := db.blocks.filter (fun b => !(b.id == block.id)) }
      with hdb1
    set bs := listing db1 pid0 with hbs
    have hn1 : idsNodup db1 := by
      refine h.1.sublist ?_
      exact (List.filter_sublist db.blocks).map (fun b => b.id)
    have hnbs : ((bs.map (fun b => b.id)).Nodup) := listing_ids_nodup hn1 pid0
    have hmap := applyRenumber_eq_map bs db1 1 now hnbs
    set H : Block → Block := fun b =>
      match idIndex bs b.id with
      | some i => { b with position := 1 + i, updated_at := now }
      | none => b with hH
    have hHid : ∀ x, (H x).id = x.id := by
      intro x
      simp only [hH]
      rcases idIndex bs x.id with _ | i <;> rfl
    have hHpage : ∀ x, (H x).page_id = x.page_id := by
      intro x
      simp only [hH]
      rcases idIndex bs x.id with _ | i <;> rfl
    have hset : applyRenumber db1 bs 1 now = { db1 with blocks := db1.blocks.map H } := by
      obtain ⟨hu, hpg⟩ := applyRenumber_users_pages bs db1 1 now
      rcases happ : applyRenumber db1 bs 1 now with ⟨u, p, bl⟩
      rw [happ] at hu hpg hmap
      simp only at hu hpg hmap
      rw [hu, hpg, hmap]
    rw [hset]
    refine DbInv_of (idsNodup_map db1 H hHid hn1) ?_
    intro q
    by_cases hq : q = pid0
    · subst hq
      have hbl := blocksOf_map db1 H hHpage pid0
      have hperm : List.Perm (blocksOf db1 pid0) bs := (listing_perm db1 pid0).symm
      have hg : ∀ x ∈ blocksOf db1 pid0, (H x).position = 1 + (idIndex bs x.id).getD 0 := by
        intro x hx
        obtain ⟨i, hi⟩ := idIndex_mem (hperm.mem_iff.mp hx)
        simp [hH, hi]
      have hlen : (blocksOf { db1 with blocks := db1.blocks.map H } pid0).length =
          bs.length := by
        rw [hbl, List.length_map, hperm.length_eq]
      have hcong : (blocksOf db1 pid0).map (fun x => (H x).position) =
          (blocksOf db1 pid0).map (fun x => 1 + (idIndex bs x.id).getD 0) :=
        List.map_congr_left hg
      have hbseq : bs.map (fun x => 1 + (idIndex bs x.id).getD 0) =
          List.range' 1 bs.length := by
        rw [show bs.map (fun x => 1 + (idIndex bs x.id).getD 0) =
            (bs.map (fun x => (idIndex bs x.id).getD 0)).map (fun i => 1 + i) from by
          rw [List.map_map]; rfl]
        rw [map_idIndex_range bs hnbs, List.range'_eq_map_range]
      have hp1 := hperm.map (fun x => 1 + (idIndex bs x.id).getD 0)
      rw [hbseq] at hp1
      simp only [positionsOk, posList, hbl, List.map_map, Function.comp_def, List.length_map]
      rw [hperm.length_eq, hcong]
      exact Multiset.coe_eq_coe.mpr hp1
    · have hbof1 : blocksOf db1 q = blocksOf db q := by
        simp only [blocksOf, hdb1, List.filter_filter]
        refine List.filter_congr (fun x hx => ?_)
        by_cases hpq : x.page_id = q
        · have hxid : ¬ (x.id == block.id) = true := by
            simp only [beq_iff_eq]
            intro he
            have := id_inj h.1 hx hbmem he
            rw [this] at hpq
            exact hq hpq.symm
          simp [hpq, hxid]
        · simp [hpq]
      have hnone : ∀ x ∈ blocksOf db1 q, H x = x := by
        intro x hx
        have hxpage : x.page_id = q := (mem_blocksOf.mp hx).2
        have hxdb1 : x ∈ db1.blocks := (mem_blocksOf.mp hx).1
        have hidx : idIndex bs x.id = none := by
          refine idIndex_eq_none (fun y hy hxy => ?_)
          have hybs : y ∈ blocksOf db1 pid0 := (listing_perm db1 pid0).mem_iff.mp hy
          have hypage : y.page_id = pid0 := (mem_blocksOf.mp hybs).2
          have hydb1 : y ∈ db1.blocks := (mem_blocksOf.mp hybs).1
          have := id_inj hn1 hydb1 hxdb1 hxy
          rw [this] at hypage
          rw [hxpage] at hypage
          exact hq hypage
        simp [hH, hidx]
      refine positionsOk_map_congr db1 H hHpage q (fun x hx => by rw [hnone x hx]) ?_
      have hp := h.posOk q
      simp only [positionsOk, posList, hbof1]
      exact hp

lemma dbExt (d1 d2 : DB) (hu : d1.users = d2.users) (hp : d1.pages = d2.pages)
    (hb : d1.blocks = d2.blocks) : d1 = d2 := by
  cases d1
  cases d2
  simp only at hu hp hb
  rw [hu, hp, hb]

/-- Moving a block (in any direction, including an unrecognized one)
swaps, at most, two position values, which preserves the invariant. -/
lemma moveBlock_inv (db : DB) (bid : Nat) (dir : List Char) (now : Nat) (h : DbInv db) :
    DbInv (moveBlock db bid dir now).1 := by
  rcases hfind : db.blocks.find? (fun b => b.id == bid) with _ | block
  · simpa [moveBlock, hfind] using h
  · simp only [moveBlock, hfind]
    set pid0 := block.page_id with hpid0
    set bs := listing db pid0 with hbs
    split
    · exact h
    · rename_i idx hidx
      set swapIdx : Int :=
        if dir = "up".data then (idx : Int) - 1
        else if dir = "down".data then (idx : Int) + 1
        else (idx : Int) with hsw
      by_cases hbound : swapIdx < 0 ∨ (bs.length : Int) ≤ swapIdx
      · rw [if_pos hbound]
        exact h
      · rw [if_neg hbound]
        push_neg at hbound
        have hidxlt : idx < bs.length := (idIndex_some hidx).1
        have hswlt : swapIdx.toNat < bs.length := by omega
        set a := bs.getD idx dummyBlock with ha
        set b := bs.getD swapIdx.toNat dummyBlock with hb
        have hamem : a ∈ bs := by
          rw [ha, List.getD_eq_getElem bs dummyBlock hidxlt]
          exact List.getElem_mem hidxlt
        have hbmem2 : b ∈ bs := by
          rw [hb, List.getD_eq_getElem bs dummyBlock hswlt]
          exact List.getElem_mem hswlt
        have hablk : a ∈ blocksOf db pid0 := (listing_perm db pid0).mem_iff.mp hamem
        have hbblk : b ∈ blocksOf db pid0 := (listing_perm db pid0).mem_iff.mp hbmem2
        have hadb : a ∈ db.blocks := (mem_blocksOf.mp hablk).1
        have hbdb : b ∈ db.blocks := (mem_blocksOf.mp hbblk).1
        have hapage : a.page_id = pid0 := (mem_blocksOf.mp hablk).2
        have hbpage : b.page_id = pid0 := (mem_blocksOf.mp hbblk).2
        by_cases heq : idx = swapIdx.toNat
        · have hab : b = a := by rw [hb, ha, heq]
          rw [hab]
          set F : Block → Block := fun x =>
            if x.id = a.id then { x with position := a.position, updated_at := now }
            else x with hF
          have hdu : (updateBlockPos (updateBlockPos db a.id a.position now)
              a.id a.position now).blocks = db.blocks.map F :=
            double_update_self db a.id a.position now
          have hform := dbExt (updateBlockPos (updateBlockPos db a.id a.position now)
              a.id a.position now) { db with blocks := db.blocks.map F } rfl rfl hdu
          rw [hform]
          have hFid : ∀ x, (F x).id = x.id := by
            intro x
            simp only [hF]
            by_cases hx : x.id = a.id <;> simp [hx]
          have hFpage : ∀ x, (F x).page_id = x.page_id := by
            intro x
            simp only [hF]
            by_cases hx : x.id = a.id <;> simp [hx]
          refine DbInv_of (idsNodup_map db F hFid h.1) (fun q => ?_)
          refine positionsOk_map_congr db F hFpage q (fun x hx => ?_) (h.posOk q)
          simp only [hF]
          by_cases hxa : x.id = a.id
          · have : x = a := id_inj h.1 (mem_blocksOf.mp hx).1 hadb hxa
            simp [hxa, this]
          · simp [hxa]
        · have hne : a.id ≠ b.id := by
            intro he
            have hnbs : ((bs.map (fun x => x.id)).Nodup) := listing_ids_nodup h.1 pid0
            have hi1 : idx < (bs.map (fun x => x.id)).length := by simpa using hidxlt
            have hi2 : swapIdx.toNat < (bs.map (fun x => x.id)).length := by simpa using hswlt
            have ha2 : a = bs[idx] := by
              rw [ha]; exact List.getD_eq_getElem bs dummyBlock hidxlt
            have hb2 : b = bs[swapIdx.toNat] := by
              rw [hb]; exact List.getD_eq_getElem bs dummyBlock hswlt
            have hga : (bs.map (fun x => x.id)).get ⟨idx, hi1⟩ = a.id := by
              rw [ha2]; simp [List.getElem_map]
            have hgb : (bs.map (fun x => x.id)).get ⟨swapIdx.toNat, hi2⟩ = b.id := by
              rw [hb2]; simp [List.getElem_map]
            have : (⟨idx, hi1⟩ : Fin _) = ⟨swapIdx.toNat, hi2⟩ :=
              (List.Nodup.get_inj_iff hnbs).mp (by rw [hga, hgb, he])
            exact heq (by simpa using congrArg Fin.val this)
          set F : Block → Block := fun x =>
            if x.id = a.id then { x with position := b.position, updated_at := now }
            else if x.id = b.id then { x with position := a.position, updated_at := now }
            else x with hF
          have hdu : (updateBlockPos (updateBlockPos db a.id b.position now)
              b.id a.position now).blocks = db.blocks.map F :=
            double_update db a.id b.id a.position b.position now hne
          have hform := dbExt (updateBlockPos (updateBlockPos db a.id b.position now)
              b.id a.position now) { db with blocks := db.blocks.map F } rfl rfl hdu
          rw [hform]
          have hFid : ∀ x, (F x).id = x.id := by
            intro x
            simp only [hF]
            by_cases h1 : x.id = a.id
            · simp [h1]
            · by_cases h2 : x.id = b.id <;> simp [h1, h2, Ne.symm hne]
          have hFpage : ∀ x, (F x).page_id = x.page_id := by
            intro x
            simp only [hF]
            by_cases h1 : x.id = a.id
            · simp [h1]
            · by_cases h2 : x.id = b.id <;> simp [h1, h2, Ne.symm hne]
          have hFpos : ∀ x, (F x).position = (if x.id = a.id then b.position
              else if x.id = b.id then a.position else x.position) := by
            intro x
            simp only [hF]
            by_cases h1 : x.id = a.id
            · simp [h1]
            · by_cases h2 : x.id = b.id <;> simp [h1, h2, Ne.symm hne]
          refine DbInv_of (idsNodup_map db F hFid h.1) (fun q => ?_)
          by_cases hq : q = pid0
          · subst hq
            have hbl := blocksOf_map db F hFpage pid0
            have hswap := swap_posList (blocksOf db pid0) a b hablk hbblk
              (blocksOf_ids_nodup h.1 pid0) hne
            have hp := h.posOk pid0
            simp only [positionsOk, posList, hbl, List.map_map, Function.comp_def,
              List.length_map]
            rw [List.map_congr_left (fun x _ => hFpos x)]
            rw [hswap]
            exact hp
          · refine positionsOk_map_congr db F hFpage q (fun x hx => ?_) (h.posOk q)
            have hxpage : x.page_id = q := (mem_blocksOf.mp hx).2
            have hxdb : x ∈ db.blocks := (mem_blocksOf.mp hx).1
            have hxa : x.id ≠ a.id := by
              intro he
              have := id_inj h.1 hxdb hadb he
              rw [this, hapage] at hxpage
              exact hq hxpage.symm
            have hxb : x.id ≠ b.id := by
              intro he
              have := id_inj h.1 hxdb hbdb he
              rw [this, hbpage] at hxpage
              exact hq hxpage.symm
            simp [hF, hxa, hxb]

/-- Every mutating block operation preserves the invariant. -/
lemma applyOp_inv (db : DB) (op : BlockOp) (h : DbInv db) : DbInv (applyOp db op) := by
  cases op with
  | add pid ty now => exact addBlock_inv db pid ty now h
  | del bid now => exact deleteBlock_inv db bid now h
  | move bid dir now => exact moveBlock_inv db bid dir now h

lemma applyOps_inv (db : DB) (ops : List BlockOp) (h : DbInv db) :
    DbInv (applyOps db ops) := by
  induction ops generalizing db with
  | nil => exact h
  | cons op ops ih => exact ih (applyOp db op) (applyOp_inv db op h)

/-! ## Witness fixtures: a small concrete database -/

def wUser : User :=
  { id := 1, username := "admin".data, password_hash := "hash1".data,
    role := .admin, created_at := 0 }

def wUser2 : User :=
  { id := 2, username := "editor".data, password_hash := "hash2".data,
    role := .editor, created_at := 0 }

def wPage : Page :=
  { id := 1, title := "Sensors 101".data, slug := "sensors-101".data,
    audience := "undergrad".data, status := "draft".data, created_at := 0, updated_at := 0 }

def wDb : DB := { users := [wUser, wUser2], pages := [wPage], blocks := [] }

/-- `wDb` after adding a quiz block and a text block to page 1. -/
def wDb2 : DB := (addBlock (addBlock wDb 1 .quiz 1).1 1 .text 2).1

def wEmptyBody : EditBody :=
  { heading := [], body := [], imageUrl := [], caption := [], mode := [],
    youtubeUrl := [], mp4Url := [], kind := [], quiz_json := [] }

/-! ## Claims -/

/-- C2: the claim states that deleting a page also deletes every block
referencing it, as the schema's `ON DELETE CASCADE` clause declares.  The
code violates this: no connection ever enables `PRAGMA foreign_keys`, so
the cascade never fires.  Concretely: page 1 holds two blocks; an admin
delete of page 1 removes the page row, yet both block rows survive and
are still returned by the page's block listing query. -/
theorem claim_C2_cascade_delete_codebug :
    (deletePage wDb2 Role.admin 1).2 = DeletePageResult.redirect ∧
    (deletePage wDb2 Role.admin 1).1.pages = [] ∧
    (deletePage wDb2 Role.admin 1).1.blocks = wDb2.blocks ∧
    (blocksOf (deletePage wDb2 Role.admin 1).1 1).length = 2 := by
  refine ⟨rfl, rfl, rfl, ?_⟩
  decide

/-- C6: `parseJsonSafe` is total by construction; whenever the stored
payload string fails to parse, it returns the fallback, and `renderBlocks`
therefore renders such a block with the empty payload instead of
propagating an error. -/
theorem claim_C6_decode_total_fallback :
    (∀ (s : List Char) (fallback : Json),
      jsonParse s = none → parseJsonSafe s fallback = fallback) ∧
    (∀ (bs : List Block) (b : Block), b ∈ bs →
      jsonParse b.data_json = none → (b, Json.obj []) ∈ renderBlocks bs) := by
  constructor
  · intro s fallback hfail
    simp [parseJsonSafe, hfail]
  · intro bs b hmem hfail
    refine List.mem_map.mpr ⟨b, hmem, ?_⟩
    simp [parseJsonSafe, hfail]

/-- C6 witness: a concrete corrupt payload (a lone opening brace)
degrades to the fallback and renders as the empty payload. -/
theorem claim_C6_decode_total_fallback_witness :
    jsonParse ("\x7b".data) = none ∧
    parseJsonSafe ("\x7b".data) (Json.obj []) = Json.obj [] ∧
    (({ dummyBlock with data_json := "\x7b".data } : Block), Json.obj []) ∈
      renderBlocks [{ dummyBlock with data_json := "\x7b".data }] := by
  refine ⟨rfl, ?_, ?_⟩
  · exact (claim_C6_decode_total_fallback.1 ("\x7b".data) (Json.obj []) rfl)
  · exact claim_C6_decode_total_fallback.2 _ _ (by simp) rfl

/-- C7: serializing and re-parsing restores every field, for well-formed
payloads of each of the five block types, including quizzes with any
(in particular, at least one) question. -/
theorem claim_C7_payload_roundtrip :
    (∀ heading body : List Char, ∀ fb : Json,
      parseJsonSafe (stringifyVal (textPayload heading body)) fb = textPayload heading body) ∧
    (∀ heading imageUrl caption : List Char, ∀ fb : Json,
      parseJsonSafe (stringifyVal (imagePayload heading imageUrl caption)) fb =
        imagePayload heading imageUrl caption) ∧
    (∀ heading mode youtubeUrl mp4Url caption : List Char, ∀ fb : Json,
      parseJsonSafe (stringifyVal (videoPayload heading mode youtubeUrl mp4Url caption)) fb =
        videoPayload heading mode youtubeUrl mp4Url caption) ∧
    (∀ kind body : List Char, ∀ fb : Json,
      parseJsonSafe (stringifyVal (calloutPayload kind body)) fb = calloutPayload kind body) ∧
    (∀ (title : List Char) (questions : List (List Char × List (List Char) × Nat)) (fb : Json),
      parseJsonSafe (stringifyVal (quizPayload title questions)) fb = quizPayload title questions) :=
  ⟨fun _ _ fb => parseJsonSafe_stringify _ fb,
   fun _ _ _ fb => parseJsonSafe_stringify _ fb,
   fun _ _ _ _ _ fb => parseJsonSafe_stringify _ fb,
   fun _ _ fb => parseJsonSafe_stringify _ fb,
   fun _ _ fb => parseJsonSafe_stringify _ fb⟩

/-- C9: an admin session's request to delete its own user id is rejected
with the self-delete message and no row changes; deleting any other
existing user id removes exactly that row and redirects. -/
theorem claim_C9_no_self_delete (db : DB) (sessionUserId targetId : Nat) :
    (targetId = sessionUserId →
      deleteUser db sessionUserId targetId = (db, .badRequest "You cannot delete yourself.")) ∧
    (targetId ≠ sessionUserId →
      (deleteUser db sessionUserId targetId).2 = .redirect ∧
      (∀ u ∈ db.users, u.id = targetId → u ∉ (deleteUser db sessionUserId targetId).1.users) ∧
      (∀ u ∈ db.users, u.id ≠ targetId → u ∈ (deleteUser db sessionUserId targetId).1.users)) := by
  constructor
  · intro he
    simp [deleteUser, he]
  · intro hne
    refine ⟨by simp [deleteUser, hne], ?_, ?_⟩
    · intro u hu hid
      simp [deleteUser, hne, List.mem_filter, hid]
    · intro u hu hid
      simp [deleteUser, hne, List.mem_filter, hu, hid]

/-- C9 witness: in the two-user fixture, user 1 cannot delete itself but
can delete user 2. -/
theorem claim_C9_no_self_delete_witness :
    deleteUser wDb 1 1 = (wDb, .badRequest "You cannot delete yourself.") ∧
    (deleteUser wDb 1 2).2 = .redirect ∧
    wUser2 ∉ (deleteUser wDb 1 2).1.users ∧
    wUser ∈ (deleteUser wDb 1 2).1.users := by
  refine ⟨(claim_C9_no_self_delete wDb 1 1).1 rfl, ((claim_C9_no_self_delete wDb 1 2).2 (by decide)).1,
    ((claim_C9_no_self_delete wDb 1 2).2 (by decide)).2.1 wUser2 (by decide) (by decide),
    ((claim_C9_no_self_delete wDb 1 2).2 (by decide)).2.2 wUser (by decide) (by decide)⟩

/-- C10: a failed login renders the same response whether the username is
unknown or the password does not verify: both produce exactly the
`Invalid username or password` failure, so any two failed attempts are
observationally identical. -/
theorem claim_C10_login_indistinguishable :
    (∀ (db : DB) (verify : List Char → List Char → Bool) (username password : List Char),
      db.users.find? (fun u => u.username == username) = none →
      login db verify username password = .failure "Invalid username or password") ∧
    (∀ (db : DB) (verify : List Char → List Char → Bool) (username password : List Char)
      (user : User),
      db.users.find? (fun u => u.username == username) = some user →
      verify password user.password_hash = false →
      login db verify username password = .failure "Invalid username or password") ∧
    (∀ (db1 : DB) (v1 : List Char → List Char → Bool) (u1 p1 : List Char)
      (db2 : DB) (v2 : List Char → List Char → Bool) (u2 p2 : List Char),
      (∀ i n r, login db1 v1 u1 p1 ≠ .success i n r) →
      (∀ i n r, login db2 v2 u2 p2 ≠ .success i n r) →
      login db1 v1 u1 p1 = login db2 v2 u2 p2) := by
  have hfail : ∀ (db : DB) (verify : List Char → List Char → Bool) (username password : List Char),
      (∀ i n r, login db verify username password ≠ .success i n r) →
      login db verify username password = .failure "Invalid username or password" := by
    intro db verify username password hno
    rcases hfind : db.users.find? (fun u => u.username == username) with _ | user
    · simp [login, hfind]
    · rcases hv : verify password user.password_hash with _ | _
      · simp [login, hfind, hv]
      · exact absurd (by simp [login, hfind, hv]) (hno user.id user.username user.role)
  refine ⟨?_, ?_, ?_⟩
  · intro db verify username password hfind
    simp [login, hfind]
  · intro db verify username password user hfind hv
    simp [login, hfind, hv]
  · intro db1 v1 u1 p1 db2 v2 u2 p2 h1 h2
    rw [hfail db1 v1 u1 p1 h1, hfail db2 v2 u2 p2 h2]

/-- C10 witness: an unknown-username failure and a wrong-password failure
against the fixture database render identically. -/
theorem claim_C10_login_indistinguishable_witness :
    login wDb (fun _ _ => false) ("nosuch".data) ("pw".data) =
      LoginResult.failure "Invalid username or password" ∧
    login wDb (fun _ _ => false) ("admin".data) ("pw".data) =
      LoginResult.failure "Invalid username or password" ∧
    login wDb (fun _ _ => false) ("nosuch".data) ("pw".data) =
      login wDb (fun _ _ => false) ("admin".data) ("pw".data) := by
  refine ⟨claim_C10_login_indistinguishable.1 wDb (fun _ _ => false) _ _ (by decide),
    claim_C10_login_indistinguishable.2.1 wDb (fun _ _ => false) _ _ wUser (by decide) rfl,
    claim_C10_login_indistinguishable.2.2 wDb (fun _ _ => false) _ _ wDb
      (fun _ _ => false) _ _ ?_ ?_⟩
  · intro i n r
    simp [login, show wDb.users.find? (fun u => u.username == ("nosuch".data)) = none
      from by decide]
  · intro i n r
    simp [login, show wDb.users.find? (fun u => u.username == ("admin".data)) = some wUser
      from by decide]

/-- C4: a slug collision on page creation and a username collision on
user creation each surface as the specific conflict message of that form
(`Slug already exists. Choose another.` / `Username already exists.`),
and the database — in particular the colliding existing row — is left
completely unmodified. -/
theorem claim_C4_unique_conflicts :
    (∀ (db : DB) (title slug audience status : List Char) (now : Nat) (p : Page),
      p ∈ db.pages → p.slug = safeSlug (jsOr slug (jsOr title [])) →
      title ≠ [] → p.slug ≠ [] →
      createPage db title slug audience status now =
        (db, .formError "Slug already exists. Choose another.")) ∧
    (∀ (db : DB) (hash : List Char → List Char) (username password role : List Char)
      (now : Nat) (u : User),
      u ∈ db.users → u.username = username → username ≠ [] → password ≠ [] →
      createUser db hash username password role now =
        (db, .formError "Username already exists.")) := by
  constructor
  · intro db title slug audience status now p hp hs ht hs0
    have hfs : safeSlug (jsOr slug (jsOr title [])) ≠ [] := hs ▸ hs0
    have hany : db.pages.any (fun q => q.slug == safeSlug (jsOr slug (jsOr title []))) = true :=
      List.any_eq_true.mpr ⟨p, hp, by simp [← hs]⟩
    simp [createPage, ht, hfs, hany]
  · intro db hash username password role now u hu huser h0 hp
    have hany : db.users.any (fun v => v.username == username) = true :=
      List.any_eq_true.mpr ⟨u, hu, by simp [huser]⟩
    simp [createUser, h0, hp, hany]

/-- C4 witness: creating a second page with slug `sensors-101`, or a
second user named `admin`, against the fixture database yields the two
conflict messages and no change. -/
theorem claim_C4_unique_conflicts_witness :
    createPage wDb ("New".data) ("sensors-101".data) [] [] 7 =
      (wDb, .formError "Slug already exists. Choose another.") ∧
    createUser wDb (fun p => p) ("admin".data) ("pw".data) [] 7 =
      (wDb, .formError "Username already exists.") :=
  ⟨claim_C4_unique_conflicts.1 wDb ("New".data) ("sensors-101".data) [] [] 7 wPage
      (by decide) (by decide) (by decide) (by decide),
   claim_C4_unique_conflicts.2 wDb (fun p => p) ("admin".data) ("pw".data) [] 7 wUser
      (by decide) (by decide) (by decide) (by decide)⟩

/-- C5: editing a quiz block whose submitted `quiz_json` fails the quiz
check returns the validation message with the previously stored payload
for redisplay, leaving the database unchanged; the quiz check succeeds
exactly when the submission parses to a non-falsy value (an object) whose
`questions` field is an array; editing a block of any of the other four
types always succeeds with a redirect, and a missing video `mode` field
defaults to `youtube` (the other missing fields default to the empty
string via `jsOr`). -/
theorem claim_C5_quiz_validation :
    (∀ (db : DB) (bid now : Nat) (body : EditBody) (block : Block),
      db.blocks.find? (fun b => b.id == bid) = some block →
      block.type = .quiz →
      quizOk (parseJsonSafe body.quiz_json Json.null) = false →
      editBlock db bid body now =
        (db, .formError "Invalid quiz JSON. Ensure it has \x7b title, questions: [...] \x7d."
          (parseJsonSafe block.data_json (Json.obj [])))) ∧
    (∀ parsed : Json, quizOk parsed = true ↔
      (jsFalsy parsed = false ∧ ∃ qs, jsField parsed ("questions".data) = some (Json.arr qs))) ∧
    (∀ (db : DB) (bid now : Nat) (body : EditBody) (block : Block),
      db.blocks.find? (fun b => b.id == bid) = some block →
      block.type ≠ .quiz →
      ∃ j : Json, editBlock db bid body now =
        (updateBlockData db block.id (stringifyVal j) now, .redirect block.page_id)) ∧
    (∀ (db : DB) (bid now : Nat) (body : EditBody) (block : Block),
      db.blocks.find? (fun b => b.id == bid) = some block →
      block.type = .video → body.mode = [] →
      editBlock db bid body now =
        (updateBlockData db block.id
          (stringifyVal (videoPayload (jsOr body.heading []) ("youtube".data)
            (jsOr body.youtubeUrl []) (jsOr body.mp4Url []) (jsOr body.caption []))) now,
          .redirect block.page_id)) := by
  refine ⟨?_, ?_, ?_, ?_⟩
  · intro db bid now body block hfind htype hbad
    simp [editBlock, hfind, htype, hbad]
  · intro parsed
    simp only [quizOk, Bool.and_eq_true, Bool.not_eq_true']
    constructor
    · rintro ⟨h1, h2⟩
      refine ⟨h1, ?_⟩
      unfold questionsIsArray at h2
      rcases hj : jsField parsed ("questions".data) with _ | j
      · rw [hj] at h2; simp at h2
      · rw [hj] at h2
        cases j <;> simp at h2
        next xs => exact ⟨xs, rfl⟩
    · rintro ⟨h1, qs, hqs⟩
      exact ⟨h1, by simp [questionsIsArray, hqs]⟩
  · intro db bid now body block hfind htype
    cases hty : block.type with
    | text =>
      exact ⟨textPayload (jsOr body.heading []) (jsOr body.body []),
        by simp [editBlock, hfind, hty]⟩
    | image =>
      exact ⟨imagePayload (jsOr body.heading []) (jsOr body.imageUrl []) (jsOr body.caption []),
        by simp [editBlock, hfind, hty]⟩
    | video =>
      exact ⟨videoPayload (jsOr body.heading []) (jsOr body.mode ("youtube".data))
          (jsOr body.youtubeUrl []) (jsOr body.mp4Url []) (jsOr body.caption []),
        by simp [editBlock, hfind, hty]⟩
    | callout =>
      exact ⟨calloutPayload (jsOr body.kind ("Key idea".data)) (jsOr body.body []),
        by simp [editBlock, hfind, hty]⟩
    | quiz => exact absurd hty htype
  · intro db bid now body block hfind htype hmode
    simp [editBlock, hfind, htype, hmode, jsOr]

def wBadBody : EditBody :=
  { wEmptyBody with quiz_json := "0".data }

def wQuizBlock : Block := wDb2.blocks.getD 0 dummyBlock

def wTextBlock : Block := wDb2.blocks.getD 1 dummyBlock

/-- `wDb2` after adding a video block to page 1. -/
def wDb3 : DB := (addBlock wDb2 1 .video 3).1

def wVideoBlock : Block := wDb3.blocks.getD 2 dummyBlock

/-- C5 witness: on the fixture database, submitting `0` as quiz JSON to
the quiz block yields the validation error with the stored payload, a
one-key object with an array `questions` passes the check, and editing
the text and video blocks with an all-empty form succeeds (the video
mode defaulting to `youtube`). -/
theorem claim_C5_quiz_validation_witness :
    editBlock wDb2 1 wBadBody 5 =
      (wDb2, .formError "Invalid quiz JSON. Ensure it has \x7b title, questions: [...] \x7d."
        (parseJsonSafe wQuizBlock.data_json (Json.obj []))) ∧
    (quizOk (Json.obj [(("questions".data : List Char), Json.arr [])]) = true ↔
      (jsFalsy (Json.obj [(("questions".data : List Char), Json.arr [])]) = false ∧
        ∃ qs, jsField (Json.obj [(("questions".data : List Char), Json.arr [])])
          ("questions".data) = some (Json.arr qs))) ∧
    (∃ j : Json, editBlock wDb2 2 wEmptyBody 5 =
      (updateBlockData wDb2 wTextBlock.id (stringifyVal j) 5, .redirect wTextBlock.page_id)) ∧
    editBlock wDb3 3 wEmptyBody 5 =
      (updateBlockData wDb3 wVideoBlock.id
        (stringifyVal (videoPayload (jsOr wEmptyBody.heading []) ("youtube".data)
          (jsOr wEmptyBody.youtubeUrl []) (jsOr wEmptyBody.mp4Url [])
          (jsOr wEmptyBody.caption []))) 5, .redirect wVideoBlock.page_id) :=
  ⟨claim_C5_quiz_validation.1 wDb2 1 5 wBadBody wQuizBlock rfl rfl rfl,
   claim_C5_quiz_validation.2.1 _,
   claim_C5_quiz_validation.2.2.1 wDb2 2 5 wEmptyBody wTextBlock rfl (by decide),
   claim_C5_quiz_validation.2.2.2 wDb3 3 5 wEmptyBody wVideoBlock rfl rfl rfl⟩

/-- C1: starting from a database satisfying the per-page ordering
invariant, any finite sequence of block operations (add, delete, move)
— in particular any single one — leaves every page's multiset of block
position values exactly `(1, ..., N)` for `N` that page's current block
count: no gaps, no duplicates. -/
theorem claim_C1_positions_invariant (db : DB) (ops : List BlockOp) (h : DbInv db) :
    ∀ pid : Nat, positionsOk (applyOps db ops) pid :=
  fun pid => (applyOps_inv db ops h).posOk pid

/-- C1 witness: the fixture page holds blocks at positions 1,2; after
deleting the first block, adding a callout and moving it up, the page's
positions are again exactly 1..N. -/
theorem claim_C1_positions_invariant_witness :
    DbInv wDb2 ∧ positionsOk (applyOps wDb2
      [BlockOp.del 1 4, BlockOp.add 1 BlockType.callout 5, BlockOp.move 3 ("up".data) 6]) 1 :=
  ⟨by decide, claim_C1_positions_invariant wDb2
    [BlockOp.del 1 4, BlockOp.add 1 BlockType.callout 5, BlockOp.move 3 ("up".data) 6]
    (by decide) 1⟩

/-! ## Listing positions: helper lemmas for the move and append claims -/

lemma sorted_le_range1 (s n : Nat) :
    List.Sorted (fun a b : Nat => a ≤ b) (List.range' s n) := by
  induction n generalizing s with
  | zero => simp
  | succ n ih =>
    rw [List.range'_succ]
    refine List.sorted_cons.mpr ⟨fun b hb => ?_, ih (s + 1)⟩
    have := List.mem_range'_1.mp hb
    omega

/-- Under the invariant, the position-ascending listing of a page carries
positions exactly `1, 2, ..., N` in order. -/
lemma listing_positions (db : DB) (pid : Nat) (h : DbInv db) :
    (listing db pid).map (fun b => b.position) = List.range' 1 (listing db pid).length := by
  have hlen : (listing db pid).length = (blocksOf db pid).length := (listing_perm db pid).length_eq
  have hperm : List.Perm ((listing db pid).map fun b => b.position)
      (List.range' 1 (blocksOf db pid).length) :=
    ((listing_perm db pid).map _).trans (Multiset.coe_eq_coe.mp (h.posOk pid))
  have hs1 : List.Sorted (fun a b : Nat => a ≤ b) ((listing db pid).map fun b => b.position) :=
    List.pairwise_map.mpr ((listing_sorted db pid).imp (fun hab => hab))
  have hs2 := sorted_le_range1 1 (blocksOf db pid).length
  rw [List.eq_of_perm_of_sorted hperm hs1 hs2, hlen]

/-- The block at zero-based index `i` of a page's listing sits at
position `i + 1`. -/
lemma listing_getD_pos (db : DB) (pid : Nat) (h : DbInv db) (i : Nat)
    (hi : i < (listing db pid).length) :
    ((listing db pid).getD i dummyBlock).position = i + 1 := by
  have hb : i < ((listing db pid).map (fun b => b.position)).length := by simpa using hi
  have h1 : ((listing db pid).map (fun b => b.position))[i] =
      ((listing db pid).getD i dummyBlock).position := by
    rw [List.getD_eq_getElem _ _ hi]
    simp [List.getElem_map]
  have h2 : ((listing db pid).map (fun b => b.position))[i] = 1 + i := by
    simp only [listing_positions db pid h]
    simp [List.getElem_range']
  omega

/-- A sorted listing with duplicate-free positions is determined by its
multiset of rows. -/
lemma sortedUnique : ∀ (l1 l2 : List Block), List.Perm l1 l2 →
    List.Sorted blockLE l1 → List.Sorted blockLE l2 →
    (l1.map (fun b => b.position)).Nodup → l1 = l2 := by
  intro l1
  induction l1 with
  | nil =>
    intro l2 hp _ _ _
    exact (List.nil_perm.mp hp).symm
  | cons x t ih =>
    intro l2 hp hs1 hs2 hnd
    cases l2 with
    | nil =>
      have := hp.length_eq
      simp at this
    | cons y s =>
      have hndc : (x.position :: t.map (fun b => b.position)).Nodup := by simpa using hnd
      by_cases hxy : x = y
      · subst hxy
        rw [ih s hp.cons_inv hs1.of_cons hs2.of_cons (List.nodup_cons.mp hndc).2]
      · have hxmem : x ∈ s := by
          rcases List.mem_cons.mp ((@List.Perm.mem_iff _ x _ _ hp).mp
            (List.mem_cons_self x t)) with h | h
          · exact absurd h hxy
          · exact h
        have hymem : y ∈ t := by
          rcases List.mem_cons.mp ((@List.Perm.mem_iff _ y _ _ hp).mpr
            (List.mem_cons_self y s)) with h | h
          · exact absurd h.symm hxy
          · exact h
        have h1 : x.position ≤ y.position := (List.sorted_cons.mp hs1).1 y hymem
        have h2 : y.position ≤ x.position := (List.sorted_cons.mp hs2).1 x hxmem
        exact absurd (List.mem_map.mpr ⟨y, hymem, le_antisymm h2 h1⟩)
          (List.nodup_cons.mp hndc).1

/-- Unfolding of the move handler once the target row and its listing
index are known. -/
lemma moveBlock_eq (db : DB) (bid : Nat) (dir : List Char) (now : Nat) (block : Block)
    (hfind : db.blocks.find? (fun b => b.id == bid) = some block)
    (idx : Nat) (hidx : idIndex (listing db block.page_id) block.id = some idx)
    (swapIdx : Int)
    (hsw : swapIdx = if dir = "up".data then (idx : Int) - 1
      else if dir = "down".data then (idx : Int) + 1 else (idx : Int)) :
    moveBlock db bid dir now =
      if swapIdx < 0 ∨ ((listing db block.page_id).length : Int) ≤ swapIdx then
        (db, .redirect block.page_id)
      else
        (updateBlockPos (updateBlockPos db ((listing db block.page_id).getD idx dummyBlock).id
            ((listing db block.page_id).getD swapIdx.toNat dummyBlock).position now)
          ((listing db block.page_id).getD swapIdx.toNat dummyBlock).id
          ((listing db block.page_id).getD idx dummyBlock).position now,
          .redirect block.page_id) := by
  subst hsw
  simp only [moveBlock, hfind, hidx]

/-- Distinct listing indices carry distinct row ids. -/
lemma listing_getD_id_ne (db : DB) (pid : Nat) (h : DbInv db) (i j : Nat)
    (hi : i < (listing db pid).length) (hj : j < (listing db pid).length) (hij : i ≠ j) :
    ((listing db pid).getD i dummyBlock).id ≠ ((listing db pid).getD j dummyBlock).id := by
  intro he
  have hnbs := listing_ids_nodup h.1 pid
  have hi1 : i < ((listing db pid).map (fun x => x.id)).length := by simpa using hi
  have hj1 : j < ((listing db pid).map (fun x => x.id)).length := by simpa using hj
  have hga : ((listing db pid).map (fun x => x.id)).get ⟨i, hi1⟩ =
      ((listing db pid).getD i dummyBlock).id := by
    rw [List.getD_eq_getElem _ _ hi]
    simp [List.getElem_map]
  have hgb : ((listing db pid).map (fun x => x.id)).get ⟨j, hj1⟩ =
      ((listing db pid).getD j dummyBlock).id := by
    rw [List.getD_eq_getElem _ _ hj]
    simp [List.getElem_map]
  have : (⟨i, hi1⟩ : Fin _) = ⟨j, hj1⟩ :=
    (List.Nodup.get_inj_iff hnbs).mp (by rw [hga, hgb, he])
  exact hij (by simpa using congrArg Fin.val this)

/-- C3: for a block at zero-based listing index `idx` of its page, moving
the first block up or the last block down is a no-op redirect with the
whole database unchanged; otherwise the move is a transposition of the
position values of exactly the moved block and its adjacent neighbour
(positions `idx + 1` and `idx` for up, `idx + 1` and `idx + 2` for
down): row identities are untouched, and every other row is left
exactly as it was. -/
theorem claim_C3_move_semantics (db : DB) (bid now : Nat) (block : Block)
    (h : DbInv db)
    (hfind : db.blocks.find? (fun b => b.id == bid) = some block)
    (idx : Nat) (hidx : idIndex (listing db block.page_id) block.id = some idx) :
    (idx = 0 → moveBlock db bid ("up".data) now = (db, .redirect block.page_id)) ∧
    (idx = (listing db block.page_id).length - 1 →
      moveBlock db bid ("down".data) now = (db, .redirect block.page_id)) ∧
    (0 < idx →
      ((listing db block.page_id).getD idx dummyBlock).position = idx + 1 ∧
      ((listing db block.page_id).getD (idx - 1) dummyBlock).position = idx ∧
      moveBlock db bid ("up".data) now =
        ({ db with blocks := db.blocks.map (fun x =>
            if x.id = ((listing db block.page_id).getD idx dummyBlock).id then
              { x with position := idx, updated_at := now }
            else if x.id = ((listing db block.page_id).getD (idx - 1) dummyBlock).id then
              { x with position := idx + 1, updated_at := now }
            else x) }, .redirect block.page_id)) ∧
    (idx + 1 < (listing db block.page_id).length →
      ((listing db block.page_id).getD idx dummyBlock).position = idx + 1 ∧
      ((listing db block.page_id).getD (idx + 1) dummyBlock).position = idx + 2 ∧
      moveBlock db bid ("down".data) now =
        ({ db with blocks := db.blocks.map (fun x =>
            if x.id = ((listing db block.page_id).getD idx dummyBlock).id then
              { x with position := idx + 2, updated_at := now }
            else if x.id = ((listing db block.page_id).getD (idx + 1) dummyBlock).id then
              { x with position := idx + 1, updated_at := now }
            else x) }, .redirect block.page_id)) := by
  have hidxlt : idx < (listing db block.page_id).length := (idIndex_some hidx).1
  refine ⟨?_, ?_, ?_, ?_⟩
  · intro h0
    subst h0
    rw [moveBlock_eq db bid ("up".data) now block hfind 0 hidx ((0 : Int) - 1) (by simp)]
    rw [if_pos (Or.inl (by omega))]
  · intro h0
    rw [moveBlock_eq db bid ("down".data) now block hfind idx hidx ((idx : Int) + 1)
      (by simp +decide)]
    rw [if_pos (Or.inr (by omega))]
  · intro h0
    have hjlt : idx - 1 < (listing db block.page_id).length := by omega
    have hpa : ((listing db block.page_id).getD idx dummyBlock).position = idx + 1 :=
      listing_getD_pos db block.page_id h idx hidxlt
    have hpb : ((listing db block.page_id).getD (idx - 1) dummyBlock).position = idx := by
      have := listing_getD_pos db block.page_id h (idx - 1) hjlt
      omega
    refine ⟨hpa, hpb, ?_⟩
    rw [moveBlock_eq db bid ("up".data) now block hfind idx hidx ((idx : Int) - 1) (by simp)]
    rw [if_neg (by push_neg; constructor <;> omega)]
    rw [show ((idx : Int) - 1).toNat = idx - 1 from by omega]
    refine congrArg (fun d => (d, BlockOpResult.redirect block.page_id)) ?_
    refine dbExt _ _ rfl rfl ?_
    rw [double_update db _ _ _ _ now
      (listing_getD_id_ne db block.page_id h idx (idx - 1) hidxlt hjlt (by omega))]
    simp only [hpa, hpb]
  · intro h0
    have hjlt : idx + 1 < (listing db block.page_id).length := h0
    have hpa : ((listing db block.page_id).getD idx dummyBlock).position = idx + 1 :=
      listing_getD_pos db block.page_id h idx hidxlt
    have hpb : ((listing db block.page_id).getD (idx + 1) dummyBlock).position = idx + 2 := by
      have := listing_getD_pos db block.page_id h (idx + 1) hjlt
      omega
    refine ⟨hpa, hpb, ?_⟩
    rw [moveBlock_eq db bid ("down".data) now block hfind idx hidx ((idx : Int) + 1)
      (by simp +decide)]
    rw [if_neg (by push_neg; constructor <;> omega)]
    rw [show ((idx : Int) + 1).toNat = idx + 1 from by omega]
    refine congrArg (fun d => (d, BlockOpResult.redirect block.page_id)) ?_
    refine dbExt _ _ rfl rfl ?_
    rw [double_update db _ _ _ _ now
      (listing_getD_id_ne db block.page_id h idx (idx + 1) hidxlt hjlt (by omega))]
    simp only [hpa, hpb]

/-- C3 witness: on the two-block fixture page, moving block 1 (first) up
and block 2 (last) down are no-ops; moving block 2 up and block 1 down
each swap exactly the two position values. -/
theorem claim_C3_move_semantics_witness :
    moveBlock wDb2 1 ("up".data) 9 = (wDb2, .redirect wQuizBlock.page_id) ∧
    moveBlock wDb2 2 ("down".data) 9 = (wDb2, .redirect wTextBlock.page_id) ∧
    (((listing wDb2 wTextBlock.page_id).getD 1 dummyBlock).position = 1 + 1 ∧
     ((listing wDb2 wTextBlock.page_id).getD (1 - 1) dummyBlock).position = 1 ∧
     moveBlock wDb2 2 ("up".data) 9 =
       ({ wDb2 with blocks := wDb2.blocks.map (fun x =>
           if x.id = ((listing wDb2 wTextBlock.page_id).getD 1 dummyBlock).id then
             { x with position := 1, updated_at := 9 }
           else if x.id = ((listing wDb2 wTextBlock.page_id).getD (1 - 1) dummyBlock).id then
             { x with position := 1 + 1, updated_at := 9 }
           else x) }, .redirect wTextBlock.page_id)) ∧
    (((listing wDb2 wQuizBlock.page_id).getD 0 dummyBlock).position = 0 + 1 ∧
     ((listing wDb2 wQuizBlock.page_id).getD (0 + 1) dummyBlock).position = 0 + 2 ∧
     moveBlock wDb2 1 ("down".data) 9 =
       ({ wDb2 with blocks := wDb2.blocks.map (fun x =>
           if x.id = ((listing wDb2 wQuizBlock.page_id).getD 0 dummyBlock).id then
             { x with position := 0 + 2, updated_at := 9 }
           else if x.id = ((listing wDb2 wQuizBlock.page_id).getD (0 + 1) dummyBlock).id then
             { x with position := 0 + 1, updated_at := 9 }
           else x) }, .redirect wQuizBlock.page_id)) :=
  ⟨(claim_C3_move_semantics wDb2 1 9 wQuizBlock (by decide) rfl 0 rfl).1 rfl,
   (claim_C3_move_semantics wDb2 2 9 wTextBlock (by decide) rfl 1 rfl).2.1 (by decide),
   (claim_C3_move_semantics wDb2 2 9 wTextBlock (by decide) rfl 1 rfl).2.2.1 (by decide),
   (claim_C3_move_semantics wDb2 1 9 wQuizBlock (by decide) rfl 0 rfl).2.2.2 (by decide)⟩

lemma nodup_range1 (s n : Nat) : (List.range' s n).Nodup := by
  induction n generalizing s with
  | zero => simp
  | succ n ih =>
    rw [List.range'_succ]
    refine List.nodup_cons.mpr ⟨fun hmem => ?_, ih (s + 1)⟩
    have := List.mem_range'_1.mp hmem
    omega

/-- C8: adding a block to an existing page appends a single new row at
position (current block count of that page) + 1, and the page's
position-ascending listing afterwards is the old listing with the new
block at the end: the new block is last in display order. -/
theorem claim_C8_append_last (db : DB) (pid now : Nat) (ty : BlockType) (page : Page)
    (h : DbInv db)
    (hfind : db.pages.find? (fun p => p.id == pid) = some page) :
    ∃ nb : Block,
      (addBlock db pid ty now).1.blocks = db.blocks ++ [nb] ∧
      nb.position = (blocksOf db page.id).length + 1 ∧
      nb.page_id = page.id ∧
      listing (addBlock db pid ty now).1 page.id = listing db page.id ++ [nb] := by
  have hinv' := addBlock_inv db pid ty now h
  set nb : Block :=
    { id := freshBlockId db, page_id := page.id, type := ty,
      data_json := stringifyVal (defaultPayload ty),
      position := (db.blocks.filter (fun b => b.page_id == page.id)).length + 1,
      created_at := now, updated_at := now } with hnb
  have hblocks : (addBlock db pid ty now).1.blocks = db.blocks ++ [nb] := by
    simp only [addBlock, hfind]
  have hdb1 : (addBlock db pid ty now).1 = { db with blocks := db.blocks ++ [nb] } := by
    refine dbExt _ _ ?_ ?_ hblocks <;> simp [addBlock, hfind]
  have hpagenb : nb.page_id = page.id := by rw [hnb]
  have hposnb : nb.position = (blocksOf db page.id).length + 1 := by
    rw [hnb]
    simp [blocksOf]
  have hlen : (listing db page.id).length = (blocksOf db page.id).length :=
    (listing_perm db page.id).length_eq
  have hbof : blocksOf { db with blocks := db.blocks ++ [nb] } page.id =
      blocksOf db page.id ++ [nb] := by
    simp [blocksOf, List.filter_append, hpagenb]
  have hperm : List.Perm (listing { db with blocks := db.blocks ++ [nb] } page.id)
      (listing db page.id ++ [nb]) := by
    refine (listing_perm _ page.id).trans ?_
    rw [hbof]
    exact ((listing_perm db page.id).symm.append (List.Perm.refl [nb]))
  have hsorted2 : List.Sorted blockLE (listing db page.id ++ [nb]) := by
    rw [List.Sorted, List.pairwise_append]
    refine ⟨listing_sorted db page.id, by simp, ?_⟩
    intro a ha b hb
    have hbnb : b = nb := by simpa using hb
    have hmem : a.position ∈ (listing db page.id).map (fun x => x.position) :=
      List.mem_map.mpr ⟨a, ha, rfl⟩
    rw [listing_positions db page.id h] at hmem
    have hrange := List.mem_range'_1.mp hmem
    rw [hbnb]
    show a.position ≤ nb.position
    rw [hposnb]
    omega
  have hinv2 : DbInv { db with blocks := db.blocks ++ [nb] } := hdb1 ▸ hinv'
  have hnd : ((listing { db with blocks := db.blocks ++ [nb] } page.id).map
      (fun b => b.position)).Nodup := by
    rw [listing_positions _ page.id hinv2]
    exact nodup_range1 1 _
  have hfin := sortedUnique _ _ hperm (listing_sorted _ page.id) hsorted2 hnd
  refine ⟨nb, hblocks, hposnb, hpagenb, ?_⟩
  rw [hdb1]
  exact hfin

/-- C8 witness: adding a callout block to the empty fixture page appends
one row at position 1 which is the listing's last (and only) element. -/
theorem claim_C8_append_last_witness :
    ∃ nb : Block,
      (addBlock wDb 1 BlockType.callout 7).1.blocks = wDb.blocks ++ [nb] ∧
      nb.position = (blocksOf wDb wPage.id).length + 1 ∧
      nb.page_id = wPage.id ∧
      listing (addBlock wDb 1 BlockType.callout 7).1 wPage.id =
        listing wDb wPage.id ++ [nb] :=
  claim_C8_append_last wDb 1 7 BlockType.callout wPage (by decide) rfl
